import Mathlib

/-!
Verification development for the marker processing engine
(procyon-projects/marker): a shallow embedding in Lean 4 of the
collector (collector.go), the comment/node visitor (visitor.go) and the
argument-type machinery (visitor/slice.go), together with theorems about
the behaviour of those functions.

Components of the repository that are outside the provided sources
(the low-level Scanner, the Definition Registry, marker-text splitting
and the ErrorList) are modelled from the specification document and each
such definition is marked with a doc comment starting with
"Modelled from the spec:".

Conventions of the embedding:
* Go runes are Lean Char; EOF is represented by Option Char = none.
* Machine integers are Lean Int with explicit 64-bit range checks where
  the Go code can overflow (strconv.Atoi).
* Mutating functions become state-passing functions; reflect.Value cells
  become values of the dynamic type Value below.
* Loops whose termination depends on scanner progress take an explicit
  fuel argument so that every definition is a computable total function;
  concrete runs supply ample fuel, and every general theorem proved below
  holds for all fuel values.
-/

set_option maxHeartbeats 1000000

namespace Marker

/-- The left curly bracket character (written by code to satisfy style rules). -/
def lbrace : Char := '\x7b'

/-- The right curly bracket character. -/
def rbrace : Char := '\x7d'

/-- The single-quote character. -/
def squote : Char := Char.ofNat 39

/-- The backquote character. -/
def bquote : Char := Char.ofNat 96

/-- Token kinds produced by the scanner: sentinel kinds for identifiers,
integers, quoted strings and end of input, and a kind for every other
single character, mirroring the rune-valued token codes of the source. -/
inductive Tok where
  | ident
  | int
  | strLit
  | eof
  | ch (c : Char)
deriving DecidableEq, Repr

/-- Modelled from the spec: the Scanner (spec 4.1) consumes a source
string positionally; the state is the character list, the search index,
the bounds of the last scanned token, and the number of errors recorded
by Expect (the user-visible error callback of the missing scanner.go). -/
structure Scanner where
  source : List Char
  searchIndex : Nat
  tokenStart : Nat
  tokenEnd : Nat
  errorCount : Nat
deriving DecidableEq, Repr

/-- Build a scanner over a character list, cursor at the start. -/
def mkScanner (src : List Char) : Scanner :=
  { source := src, searchIndex := 0, tokenStart := 0, tokenEnd := 0, errorCount := 0 }

def isWsChar (c : Char) : Bool :=
  c = ' ' ∨ c = '\t' ∨ c = '\n' ∨ c = '\x0d'

def isDigitChar (c : Char) : Bool :=
  '0' ≤ c ∧ c ≤ '9'

def isLetterChar (c : Char) : Bool :=
  ('a' ≤ c ∧ c ≤ 'z') ∨ ('A' ≤ c ∧ c ≤ 'Z') ∨ c = '_'

def isIdentStart (c : Char) : Bool := isLetterChar c

def isIdentChar (c : Char) : Bool := isLetterChar c ∨ isDigitChar c

def isQuoteChar (c : Char) : Bool :=
  c = '"' ∨ c = squote ∨ c = bquote

/-- Index after skipping whitespace, fuelled char loop. -/
def skipWsIdx (src : List Char) : Nat → Nat → Nat
  | 0, i => i
  | fuel + 1, i =>
    match src.get? i with
    | some c => if isWsChar c then skipWsIdx src fuel (i + 1) else i
    | none => i

/-- Modelled from the spec: SkipWhitespaces consumes whitespace; the
following character is reported separately by peeking. -/
def Scanner.skipWs (s : Scanner) : Scanner :=
  { s with searchIndex := skipWsIdx s.source (s.source.length + 1) s.searchIndex }

/-- Modelled from the spec: Peek returns the next rune without advancing
(none plays the role of the EOF rune). -/
def Scanner.peekChar (s : Scanner) : Option Char :=
  s.source.get? s.searchIndex

/-- SkipWhitespaces as used by the source: consume whitespace and return
the next rune unconsumed (none = EOF) together with the new state. -/
def Scanner.skipWsRet (s : Scanner) : Option Char × Scanner :=
  let s1 := s.skipWs
  (s1.peekChar, s1)

/-- End index of an identifier token starting inside the source. -/
def scanIdentEnd (src : List Char) : Nat → Nat → Nat
  | 0, i => i
  | fuel + 1, i =>
    match src.get? i with
    | some c => if isIdentChar c then scanIdentEnd src fuel (i + 1) else i
    | none => i

/-- End index of an integer token (decimal digits). -/
def scanIntEnd (src : List Char) : Nat → Nat → Nat
  | 0, i => i
  | fuel + 1, i =>
    match src.get? i with
    | some c => if isDigitChar c then scanIntEnd src fuel (i + 1) else i
    | none => i

/-- End index of a quoted string token: scans to the closing quote
(included); inside double or single quotes a backslash escapes the next
character; a backquoted string is raw.  An unterminated literal runs to
the end of the source. -/
def scanStringEnd (src : List Char) (q : Char) : Nat → Nat → Nat
  | 0, i => i
  | fuel + 1, i =>
    match src.get? i with
    | some c =>
      if c = q then i + 1
      else if c = '\\' ∧ q ≠ bquote then scanStringEnd src q fuel (i + 2)
      else scanStringEnd src q fuel (i + 1)
    | none => i

/-- Modelled from the spec: Scan advances to the next token and returns
its kind; identifiers follow the host-language rule, integers are digit
runs, string literals use double, single or backquote delimiters, any
other character is its own token, and exhausted input yields EOF. -/
def Scanner.scan (s : Scanner) : Tok × Scanner :=
  let s0 := s.skipWs
  match s0.peekChar with
  | none => (.eof, { s0 with tokenStart := s0.searchIndex, tokenEnd := s0.searchIndex })
  | some c =>
    let st := s0.searchIndex
    if isIdentStart c then
      let e := scanIdentEnd s0.source (s0.source.length + 1) (st + 1)
      (.ident, { s0 with searchIndex := e, tokenStart := st, tokenEnd := e })
    else if isDigitChar c then
      let e := scanIntEnd s0.source (s0.source.length + 1) (st + 1)
      (.int, { s0 with searchIndex := e, tokenStart := st, tokenEnd := e })
    else if isQuoteChar c then
      let e := scanStringEnd s0.source c (s0.source.length + 1) (st + 1)
      (.strLit, { s0 with searchIndex := e, tokenStart := st, tokenEnd := e })
    else
      (.ch c, { s0 with searchIndex := st + 1, tokenStart := st, tokenEnd := st + 1 })

/-- Token() returns the lexeme of the last scanned token. -/
def Scanner.token (s : Scanner) : String :=
  String.mk ((s.source.drop s.tokenStart).take (s.tokenEnd - s.tokenStart))

/-- Modelled from the spec: Expect scans; on a kind mismatch it records a
parse error (counted in errorCount) and returns false. -/
def Scanner.expect (s : Scanner) (k : Tok) : Bool × Scanner :=
  let (t, s1) := s.scan
  if t = k then (true, s1)
  else (false, { s1 with errorCount := s1.errorCount + 1 })

/-- Modelled from the spec: SetSearchIndex rewinds to an earlier offset. -/
def Scanner.setSearchIndex (s : Scanner) (i : Nat) : Scanner :=
  { s with searchIndex := i }

/-- Dynamic values: the shallow embedding of the reflect.Value cells the
parse functions write into.  vUnit is the zero value of an untyped (any)
cell; maps are association lists in insertion order. -/
inductive Value where
  | vUnit
  | vBool (b : Bool)
  | vInt (n : Int)
  | vStr (s : String)
  | vList (xs : List Value)
  | vMap (kvs : List (String × Value))

/-- ArgumentType of visitor/slice.go. -/
inductive ArgumentType where
  | invalidT
  | rawT
  | anyT
  | boolT
  | integerT
  | stringT
  | sliceT
  | mapT
deriving DecidableEq, Repr

/-- argumentTypeText of the source: the %v rendering of an ArgumentType. -/
def argumentTypeText : ArgumentType → String
  | .invalidT => "InvalidType"
  | .rawT => "RawType"
  | .anyT => "AnyType"
  | .boolT => "BoolType"
  | .integerT => "IntegerType"
  | .stringT => "StringType"
  | .sliceT => "SliceType"
  | .mapT => "MapType"

/-- ArgumentTypeInfo of visitor/slice.go: ActualType plus the ItemType
pointer.  The source invariant that Slice and Map always carry a non-nil
ItemType (spec section 3) is encoded by merging the pointer into the
constructors, so a nil ItemType under Slice or Map is unrepresentable. -/
inductive ArgumentTypeInfo where
  | invalid
  | raw
  | any
  | bool
  | integer
  | str
  | slice (item : ArgumentTypeInfo)
  | map (item : ArgumentTypeInfo)
deriving DecidableEq, Repr

/-- The ActualType field of an ArgumentTypeInfo. -/
def ArgumentTypeInfo.actual : ArgumentTypeInfo → ArgumentType
  | .invalid => .invalidT
  | .raw => .rawT
  | .any => .anyT
  | .bool => .boolT
  | .integer => .integerT
  | .str => .stringT
  | .slice _ => .sliceT
  | .map _ => .mapT

/-- Zero value of a cell of the given argument type, as produced by
reflect.New followed by Indirect. -/
def zeroValue : ArgumentTypeInfo → Value
  | .bool => .vBool false
  | .integer => .vInt 0
  | .str => .vStr ""
  | .slice _ => .vList []
  | .map _ => .vMap []
  | _ => .vUnit

/-- setValue of the source: writes a value into an output cell,
converting between identical shapes; at the level of dynamic values the
conversion is the identity, so the write replaces the cell. -/
def setValue (_out v : Value) : Value := v

/-- The string a Value holds (used for map keys, which are always
strings). -/
def Value.asStr : Value → String
  | .vStr s => s
  | _ => ""

/-- Rendering of fmt %q for the error message of parseBoolean (our
inputs contain no characters needing escapes). -/
def goQuote (s : String) : String := "\"" ++ s ++ "\""

/-- Result of a parse function: the (possibly updated) output cell, the
scanner state, and the returned error. -/
structure PRes where
  out : Value
  scanner : Scanner
  err : Option String

/-- Process the escapes inside a double- or single-quoted literal body. -/
def unescapeChars : Nat → List Char → List Char
  | 0, _ => []
  | _, [] => []
  | fuel + 1, c :: rest =>
    if c = '\\' then
      match rest with
      | [] => []
      | d :: rest2 =>
        let e :=
          if d = 'n' then '\n'
          else if d = 't' then '\t'
          else d
        e :: unescapeChars fuel rest2
    else c :: unescapeChars fuel rest

/-- Modelled from the spec: strconv.Unquote with the standard escape
rules: strips matching double quotes (processing escapes), strips
backquotes verbatim, accepts a single-quoted single character, and
rejects anything else with invalid syntax. -/
def unquote (s : String) : Except String String :=
  let cs := s.toList
  match cs with
  | [] => .error "invalid syntax"
  | q :: rest =>
    if rest = [] then .error "invalid syntax"
    else
      let body := rest.take (rest.length - 1)
      let last := rest.getLast? |>.getD ' '
      if q = '"' ∧ last = '"' then
        .ok (String.mk (unescapeChars (body.length + 1) body))
      else if q = bquote ∧ last = bquote then
        .ok (String.mk body)
      else if q = squote ∧ last = squote then
        match body with
        | [c] => .ok (String.mk [c])
        | _ => .error "invalid syntax"
      else .error "invalid syntax"

/-- Digits of a decimal literal to a natural number. -/
def digitsToNat : List Char → Option Nat
  | [] => none
  | cs =>
    cs.foldl
      (fun acc c =>
        match acc with
        | none => none
        | some n => if isDigitChar c then some (n * 10 + (c.toNat - '0'.toNat)) else none)
      (some 0)

/-- Modelled from the spec: strconv.Atoi: optional sign then decimal
digits; out of 64-bit range reports a range error with the clamped
value, malformed input reports invalid syntax. -/
def atoi (s : String) : Int × Option String :=
  let cs := s.toList
  let (neg, digits) :=
    match cs with
    | '-' :: rest => (true, rest)
    | '+' :: rest => (false, rest)
    | _ => (false, cs)
  match digitsToNat digits with
  | none => (0, some "invalid syntax")
  | some n =>
    let v : Int := if neg then -(n : Int) else (n : Int)
    if v < -(2 ^ 63) then (-(2 ^ 63), some "value out of range")
    else if v ≥ 2 ^ 63 then (2 ^ 63 - 1, some "value out of range")
    else (v, none)

/-- parseBoolean of visitor/slice.go (lines 268-285): expects an
identifier; on true or false it writes the output cell, and then falls
through to the unconditional error return of the source. -/
def parseBoolean (s : Scanner) (out : Value) : PRes :=
  let (ok, s1) := s.expect .ident
  if !ok then ⟨out, s1, none⟩
  else
    let tk := s1.token
    let out1 :=
      if tk = "false" then setValue out (.vBool false)
      else if tk = "true" then setValue out (.vBool true)
      else out
    ⟨out1, s1, some ("expected true or false, got " ++ goQuote tk)⟩

/-- parseInteger of visitor/slice.go (lines 287-320): optional minus
sign consumed by a scan, then an expected integer token, converted by
Atoi; the output cell is written before the conversion error is
checked, as in the source. -/
def parseInteger (s : Scanner) (out : Value) : PRes :=
  let isNegative := s.peekChar = some '-'
  let s1 := if isNegative then (s.scan).2 else s
  let (ok, s2) := s1.expect .int
  if !ok then ⟨out, s2, none⟩
  else
    let text := (if isNegative then "-" else "") ++ s2.token
    let (intValue, convErr) := atoi text
    let out1 := setValue out (.vInt intValue)
    match convErr with
    | some e => ⟨out1, s2, some ("unable to parse integer: " ++ e)⟩
    | none => ⟨out1, s2, none⟩

/-- The bare-string loop of parseString: scan tokens until the next
non-whitespace character is a comma, semicolon, colon, closing brace or
EOF. -/
def bareLoop : Nat → Scanner → Scanner
  | 0, s => s
  | fuel + 1, s =>
    let (c?, s0) := s.skipWsRet
    match c? with
    | none => s0
    | some c =>
      if c = ',' ∨ c = ';' ∨ c = ':' ∨ c = rbrace then s0
      else bareLoop fuel (s0.scan).2

/-- parseString of visitor/slice.go (lines 322-353): a quoted token is
unquoted; otherwise the raw characters from the start position through
the bare-string loop are the value. -/
def parseString (s : Scanner) (out : Value) : PRes :=
  let startPosition := s.searchIndex
  let (t, s1) := s.scan
  if t = .strLit then
    match unquote s1.token with
    | .ok v => ⟨setValue out (.vStr v), s1, none⟩
    | .error e => ⟨out, s1, some e⟩
  else
    let s2 := bareLoop (s1.source.length + 1) s1
    let endPosition := s2.searchIndex
    let v := String.mk ((s2.source.drop startPosition).take (endPosition - startPosition))
    ⟨setValue out (.vStr v), s2, none⟩

/-- makeSliceType and makeMapType of visitor/slice.go (lines 578-656)
combined into one structural function; the Bool selects the slice rules
(true) or the map rules (false).  Building the reflective container type
either succeeds (the zero container is then the empty list or map) or
fails with the error of the source; the nil-ItemType errors of the
source are unrepresentable here (see ArgumentTypeInfo). -/
def makeContainer : Bool → ArgumentTypeInfo → Except String Unit
  | true, .slice it =>
    (match it with
     | .integer | .bool | .str => .ok ()
     | .slice _ => makeContainer true it
     | .map _ => makeContainer false it
     | _ => .error ("invalid type: " ++ argumentTypeText it.actual))
  | true, _ => .error "this is not slice type"
  | false, .map it =>
    (match it with
     | .integer | .bool | .str | .any => .ok ()
     | .slice _ => makeContainer true it
     | .map _ => makeContainer false it
     | _ => .error ("invalid type: " ++ argumentTypeText it.actual))
  | false, _ => .error "this is not map type"

def makeSliceType (ti : ArgumentTypeInfo) : Except String Unit := makeContainer true ti

def makeMapType (ti : ArgumentTypeInfo) : Except String Unit := makeContainer false ti

/-- The legacy-slice lookahead loop of inferType (line 480): scan until
the token is a comma, EOF or semicolon, and report that token. -/
def lookaheadToSep : Nat → Scanner → Tok × Scanner
  | 0, s => (.eof, s)
  | fuel + 1, s =>
    let (t, s1) := s.scan
    if t = .ch ',' ∨ t = .eof ∨ t = .ch ';' then (t, s1)
    else lookaheadToSep fuel s1

/-- The ignoreLegacySlice = true body of inferType of visitor/slice.go
(lines 495-575): classify the upcoming expression by lookahead.  The
source threads an unused out parameter and returns an always-nil error;
both are dropped here. -/
def inferTypeIgnore : Nat → Scanner → ArgumentTypeInfo × Scanner
  | 0, s => (.invalid, s)
  | fuel + 1, s =>
    let (c?, s0) := s.skipWsRet
    let saved := s0.searchIndex
    if c? = some '"' ∨ c? = some squote ∨ c? = some bquote then (.str, s0)
    else if c? = some lbrace then
      let s1 := (s0.scan).2
      let (elementType, s2) := inferTypeIgnore fuel s1
      let s3 := s2.setSearchIndex (saved + 1)
      if elementType.actual = .stringT then
        let pr := parseString s3 (.vStr "")
        let (t2, s5) := pr.scanner.scan
        if t2 = .ch ':' then (.map .any, s5.setSearchIndex saved)
        else (.slice elementType, s5.setSearchIndex saved)
      else (.slice elementType, s3.setSearchIndex saved)
    else if c? = some 't' ∨ c? = some 'f' then
      let (t1, s1) := s0.scan
      if t1 = .ident then
        if s1.token = "true" ∨ s1.token = "false" then (.bool, s1.setSearchIndex saved)
        else (.str, s1)
      else (.invalid, s1)
    else
      let (t1, s1) := s0.scan
      let (t2, s2) := if t1 = .ch '-' then s1.scan else (t1, s1)
      if t2 = .int then (.integer, s2) else (.str, s2)

/-- inferType of visitor/slice.go (lines 471-576).  The Bool is
ignoreLegacySlice; with it false the function additionally looks ahead
for a semicolon before a comma or EOF (wrapping the result in a legacy
Slice when found) and always restores the search index to its value
after the leading whitespace. -/
def inferType (fuel : Nat) (s : Scanner) (ignoreLegacySlice : Bool) :
    ArgumentTypeInfo × Scanner :=
  if ignoreLegacySlice then inferTypeIgnore fuel s
  else
    let (_, s0) := s.skipWsRet
    let saved := s0.searchIndex
    let (itemType, s1) := inferTypeIgnore fuel s0
    let (tok, s2) := lookaheadToSep (s1.source.length + 1) s1
    let s3 := s2.setSearchIndex saved
    if tok = .ch ';' then (.slice itemType, s3) else (itemType, s3)

/-- Call descriptors for the mutually recursive parse family.  A single
fuelled function over these descriptors keeps the whole family a
structurally recursive (hence kernel-computable) definition. -/
inductive PCall where
  | parse (ti : ArgumentTypeInfo) (s : Scanner) (out : Value)
  | sliceStart (item : ArgumentTypeInfo) (s : Scanner) (out : Value)
  | sliceBrace (item : ArgumentTypeInfo) (s : Scanner) (out : Value)
      (acc : List Value) (cell : Value)
  | sliceLegacy (item : ArgumentTypeInfo) (s : Scanner) (out : Value)
      (acc : List Value) (cell : Value)
  | mapStart (item : ArgumentTypeInfo) (s : Scanner) (out : Value)
  | mapIter (item : ArgumentTypeInfo) (s : Scanner) (out : Value)
      (acc : List (String × Value)) (keyCell valCell : Value)

/-- SetMapIndex on the model map: replace an existing key, else append. -/
def mapInsert (kvs : List (String × Value)) (k : String) (v : Value) :
    List (String × Value) :=
  if kvs.any (fun p => p.1 = k) then
    kvs.map (fun p => if p.1 = k then (k, v) else p)
  else kvs ++ [(k, v)]

/-- The parse family of visitor/slice.go as one fuelled step function:
Parse (lines 198-251), parseSlice (355-419) with its brace and legacy
loops, and parseMap (421-469) with its pair loop.  The reflective
plumbing of the AnyType branch (Kind() == Ptr unwrapping and the CanSet
guard) is dropped: the model cells are always settable. -/
def parseRun : Nat → PCall → PRes
  | 0, c =>
    (match c with
     | .parse _ s out => ⟨out, s, some "fuel exhausted"⟩
     | .sliceStart _ s out => ⟨out, s, some "fuel exhausted"⟩
     | .sliceBrace _ s out _ _ => ⟨out, s, some "fuel exhausted"⟩
     | .sliceLegacy _ s out _ _ => ⟨out, s, some "fuel exhausted"⟩
     | .mapStart _ s out => ⟨out, s, some "fuel exhausted"⟩
     | .mapIter _ s out _ _ _ => ⟨out, s, some "fuel exhausted"⟩)
  | fuel + 1, c =>
    match c with
    | .parse ti s out =>
      (match ti with
       | .bool => parseBoolean s out
       | .integer => parseInteger s out
       | .str => parseString s out
       | .slice item => parseRun fuel (.sliceStart item s out)
       | .map item => parseRun fuel (.mapStart item s out)
       | .any =>
         let (inferredType, s1) := inferType fuel s false
         let newOutE : Except String Value :=
           match inferredType with
           | .slice _ => (makeSliceType inferredType).map (fun _ => Value.vList [])
           | .map _ => (makeMapType inferredType).map (fun _ => Value.vMap [])
           | _ => .ok out
         (match newOutE with
          | .error e => ⟨out, s1, some e⟩
          | .ok newOut =>
            let r := parseRun fuel (.parse inferredType s1 newOut)
            (match r.err with
             | some e => ⟨out, r.scanner, some e⟩
             | none => ⟨setValue out r.out, r.scanner, none⟩))
       | .raw => ⟨out, s, none⟩
       | .invalid => ⟨out, s, none⟩)
    | .sliceStart item s out =>
      let cell := zeroValue item
      let (c?, s0) := s.skipWsRet
      if c? = some lbrace then
        let s1 := (s0.scan).2
        parseRun fuel (.sliceBrace item s1 out [] cell)
      else
        parseRun fuel (.sliceLegacy item s0 out [] cell)
    | .sliceBrace item s out acc cell =>
      let (c?, s0) := s.skipWsRet
      if c? = some rbrace ∨ c? = none then
        let (ok, s1) := s0.expect (.ch rbrace)
        if !ok then ⟨out, s1, none⟩ else ⟨setValue out (.vList acc), s1, none⟩
      else
        let r := parseRun fuel (.parse item s0 cell)
        (match r.err with
         | some e => ⟨out, r.scanner, some e⟩
         | none =>
           let acc1 := acc ++ [r.out]
           let (c2?, s2) := r.scanner.skipWsRet
           if c2? = some rbrace then
             let (ok, s3) := s2.expect (.ch rbrace)
             if !ok then ⟨out, s3, none⟩ else ⟨setValue out (.vList acc1), s3, none⟩
           else
             let (ok, s3) := s2.expect (.ch ',')
             if !ok then ⟨out, s3, none⟩
             else parseRun fuel (.sliceBrace item s3 out acc1 r.out))
    | .sliceLegacy item s out acc cell =>
      let (c?, s0) := s.skipWsRet
      if c? = some ',' ∨ c? = some rbrace ∨ c? = none then
        ⟨setValue out (.vList acc), s0, none⟩
      else
        let r := parseRun fuel (.parse item s0 cell)
        (match r.err with
         | some e => ⟨out, r.scanner, some e⟩
         | none =>
           let acc1 := acc ++ [r.out]
           let (t?, s2) := r.scanner.skipWsRet
           if t? = some ',' ∨ t? = some rbrace ∨ t? = none then
             ⟨setValue out (.vList acc1), s2, none⟩
           else
             let s3 := (s2.scan).2
             if t? ≠ some ';' then ⟨out, s3, none⟩
             else parseRun fuel (.sliceLegacy item s3 out acc1 r.out))
    | .mapStart item s out =>
      let keyCell := Value.vStr ""
      let valCell := zeroValue item
      let (ok, s1) := s.expect (.ch lbrace)
      if !ok then ⟨out, s1, none⟩
      else parseRun fuel (.mapIter item s1 out [] keyCell valCell)
    | .mapIter item s out acc keyCell valCell =>
      let (c?, s0) := s.skipWsRet
      if c? = some rbrace ∨ c? = none then
        let (ok, s1) := s0.expect (.ch rbrace)
        if !ok then ⟨out, s1, none⟩ else ⟨setValue out (.vMap acc), s1, none⟩
      else
        let kr := parseString s0 keyCell
        (match kr.err with
         | some e => ⟨out, kr.scanner, some e⟩
         | none =>
           let (ok, s2) := kr.scanner.expect (.ch ':')
           if !ok then ⟨out, s2, none⟩
           else
             let vr := parseRun fuel (.parse item s2 valCell)
             (match vr.err with
              | some e => ⟨out, vr.scanner, some e⟩
              | none =>
                let acc1 := mapInsert acc kr.out.asStr vr.out
                let (c2?, s3) := vr.scanner.skipWsRet
                if c2? = some rbrace then
                  let (ok2, s4) := s3.expect (.ch rbrace)
                  if !ok2 then ⟨out, s4, none⟩ else ⟨setValue out (.vMap acc1), s4, none⟩
                else
                  let (ok2, s4) := s3.expect (.ch ',')
                  if !ok2 then ⟨out, s4, none⟩
                  else parseRun fuel (.mapIter item s4 out acc1 kr.out vr.out)))

/-- ArgumentTypeInfo.Parse of the source, entered with explicit fuel. -/
def ArgumentTypeInfo.Parse (fuel : Nat) (ti : ArgumentTypeInfo) (s : Scanner)
    (out : Value) : PRes :=
  parseRun fuel (.parse ti s out)

/-- parseSlice of the source, entered with explicit fuel. -/
def ArgumentTypeInfo.parseSlice (fuel : Nat) (item : ArgumentTypeInfo) (s : Scanner)
    (out : Value) : PRes :=
  parseRun fuel (.sliceStart item s out)

/-- parseMap of the source, entered with explicit fuel. -/
def ArgumentTypeInfo.parseMap (fuel : Nat) (item : ArgumentTypeInfo) (s : Scanner)
    (out : Value) : PRes :=
  parseRun fuel (.mapStart item s out)

/-- The argument text of scenario S5: a brace-delimited map literal with
an integer, a string and a nested map holding a boolean. -/
def s5Input : List Char :=
  (lbrace :: "a:1,b:".toList) ++ ("\"x\",c:".toList) ++
    (lbrace :: "d:true".toList) ++ [rbrace, rbrace]

theorem skipWs_errorCount (s : Scanner) : s.skipWs.errorCount = s.errorCount := rfl

theorem skipWs_source (s : Scanner) : s.skipWs.source = s.source := rfl

theorem scan_errorCount (s : Scanner) : (s.scan).2.errorCount = s.errorCount := by
  unfold Scanner.scan
  cases h : s.skipWs.peekChar with
  | none => simp [h, skipWs_errorCount]
  | some c =>
    simp only [h]
    split <;> try split <;> try split
    all_goals simp [skipWs_errorCount]

theorem expect_mismatch (s : Scanner) (k : Tok) (h : (s.scan).1 ≠ k) :
    s.expect k = (false, { (s.scan).2 with errorCount := (s.scan).2.errorCount + 1 }) := by
  rcases hscan : s.scan with ⟨t, s1⟩
  rw [hscan] at h
  simp only at h
  unfold Scanner.expect
  rw [hscan]
  simp [h]

/-- C2: the claim states that parsing a Bool argument from identifier
true or false sets the output and returns no error.  The code sets the
output but then unconditionally returns the "expected true or false"
error even on the valid identifiers, so the claim fails on the code:
on input true the output cell is written with the boolean true and yet
an error is returned. -/
theorem parseBoolean_true_sets_value_but_errors :
    (parseBoolean (mkScanner ("true".toList)) .vUnit).out = .vBool true ∧
    (parseBoolean (mkScanner ("true".toList)) .vUnit).err =
      some ("expected true or false, got " ++ goQuote "true") ∧
    (parseBoolean (mkScanner ("false".toList)) .vUnit).out = .vBool false ∧
    (parseBoolean (mkScanner ("false".toList)) .vUnit).err =
      some ("expected true or false, got " ++ goQuote "false") :=
  ⟨rfl, rfl, rfl, rfl⟩

/-- C7: the claim states that parsing the S5 argument into an Any-typed
field infers Map of String to Any and produces the nested map value.
The inference does yield Map of String to Any, but the parse fails: the
nested boolean true is parsed by parseBoolean, whose unconditional
error return aborts the whole map parse, so no map value is produced
and the error is returned instead. -/
theorem anyParse_s5_infers_map_but_errors :
    (inferType 50 (mkScanner s5Input) false).1 = .map .any ∧
    (ArgumentTypeInfo.Parse 50 .any (mkScanner s5Input) .vUnit).err =
      some ("expected true or false, got " ++ goQuote "true") ∧
    (ArgumentTypeInfo.Parse 50 .any (mkScanner s5Input) .vUnit).out = .vUnit :=
  ⟨rfl, rfl, rfl⟩

/-- C9: top-level type inference (legacy-slice detection enabled) is a
non-destructive lookahead: for every fuel and every scanner state the
search index after inferType equals its value at the start of the
inference, right after the leading whitespace. -/
theorem inferType_restores_searchIndex (fuel : Nat) (s : Scanner) :
    ((inferType fuel s false).2).searchIndex = s.skipWs.searchIndex := by
  unfold inferType
  simp only [if_neg (Bool.false_ne_true ∘ congrArg id)]
  simp [Scanner.skipWsRet, Scanner.setSearchIndex]
  split <;> rfl

/-- C10: when the next token is not of the kind the parser expects, the
parse functions return a nil error and leave the output cell
unmodified; the mismatch is recorded only through the Expect mechanism
(the scanner error count grows by one).  parseBoolean expects an
identifier, parseInteger expects an integer token after the optional
minus sign, and parseMap expects an opening left curly bracket. -/
theorem mismatched_token_returns_nil_error :
    (∀ (s : Scanner) (out : Value), (s.scan).1 ≠ Tok.ident →
      (parseBoolean s out).out = out ∧ (parseBoolean s out).err = none ∧
      (parseBoolean s out).scanner.errorCount = s.errorCount + 1) ∧
    (∀ (s : Scanner) (out : Value),
      (((if s.peekChar = some '-' then (s.scan).2 else s)).scan).1 ≠ Tok.int →
      (parseInteger s out).out = out ∧ (parseInteger s out).err = none ∧
      (parseInteger s out).scanner.errorCount = s.errorCount + 1) ∧
    (∀ (fuel : Nat) (item : ArgumentTypeInfo) (s : Scanner) (out : Value),
      (s.scan).1 ≠ Tok.ch lbrace →
      (ArgumentTypeInfo.parseMap (fuel + 1) item s out).out = out ∧
      (ArgumentTypeInfo.parseMap (fuel + 1) item s out).err = none ∧
      (ArgumentTypeInfo.parseMap (fuel + 1) item s out).scanner.errorCount
        = s.errorCount + 1) := by
  refine ⟨?_, ?_, ?_⟩
  · intro s out h
    unfold parseBoolean
    rw [expect_mismatch s .ident h]
    exact ⟨rfl, rfl, by simp [scan_errorCount]⟩
  · intro s out h
    unfold parseInteger
    dsimp only
    rw [expect_mismatch _ .int h]
    refine ⟨rfl, rfl, ?_⟩
    show ((if s.peekChar = some '-' then (s.scan).2 else s).scan).2.errorCount + 1
        = s.errorCount + 1
    by_cases hneg : s.peekChar = some '-' <;> simp [hneg, scan_errorCount]
  · intro fuel item s out h
    have hstep : ArgumentTypeInfo.parseMap (fuel + 1) item s out =
        (let p := s.expect (.ch lbrace)
         if !p.1 then ⟨out, p.2, none⟩
         else parseRun fuel (.mapIter item p.2 out [] (Value.vStr "") (zeroValue item))) := rfl
    rw [hstep, expect_mismatch s (.ch lbrace) h]
    exact ⟨rfl, rfl, by simp [scan_errorCount]⟩

/-- Witness for C10 at concrete inputs: an integer where parseBoolean
expects an identifier, an identifier where parseInteger expects an
integer, and an identifier where parseMap expects a left curly
bracket. -/
theorem mismatched_token_returns_nil_error_witness :
    (((mkScanner ("123".toList)).scan).1 ≠ Tok.ident ∧
      (parseBoolean (mkScanner ("123".toList)) .vUnit).err = none ∧
      (parseBoolean (mkScanner ("123".toList)) .vUnit).out = .vUnit ∧
      (parseBoolean (mkScanner ("123".toList)) .vUnit).scanner.errorCount = 1) ∧
    ((((mkScanner ("abc".toList))).scan).1 ≠ Tok.int ∧
      (parseInteger (mkScanner ("abc".toList)) .vUnit).err = none ∧
      (parseInteger (mkScanner ("abc".toList)) .vUnit).out = .vUnit) ∧
    (((mkScanner ("x".toList)).scan).1 ≠ Tok.ch lbrace ∧
      (ArgumentTypeInfo.parseMap 9 .str (mkScanner ("x".toList)) .vUnit).err = none ∧
      (ArgumentTypeInfo.parseMap 9 .str (mkScanner ("x".toList)) .vUnit).out = .vUnit) := by
  have h1 := mismatched_token_returns_nil_error.1 (mkScanner ("123".toList)) .vUnit
    (by decide)
  have h2 := mismatched_token_returns_nil_error.2.1 (mkScanner ("abc".toList)) .vUnit
    (by decide)
  have h3 := mismatched_token_returns_nil_error.2.2 8 .str (mkScanner ("x".toList)) .vUnit
    (by decide)
  exact ⟨⟨by decide, h1.2.1, h1.1, h1.2.2⟩, ⟨by decide, h2.2.1, h2.1⟩,
    ⟨by decide, h3.2.1, h3.1⟩⟩

/-! ### Classification of reflective types (GetArgumentTypeInfo) -/

/-- Go reflect kinds, as far as the classifier distinguishes them.  The
kinds that always fall to the unsupported branch carry their reflect
kind name in the other constructor. -/
inductive GoKind where
  | kPtr
  | kString
  | kBool
  | kInt | kInt8 | kInt16 | kInt32 | kInt64
  | kUint | kUint8 | kUint16 | kUint32 | kUint64
  | kSlice
  | kMap
  | kIface
  | kOther (name : String)
deriving DecidableEq, Repr

/-- The reflect.Kind.String rendering used by the unsupported-kind
error message. -/
def GoKind.name : GoKind → String
  | .kPtr => "ptr"
  | .kString => "string"
  | .kBool => "bool"
  | .kInt => "int"
  | .kInt8 => "int8"
  | .kInt16 => "int16"
  | .kInt32 => "int32"
  | .kInt64 => "int64"
  | .kUint => "uint"
  | .kUint8 => "uint8"
  | .kUint16 => "uint16"
  | .kUint32 => "uint32"
  | .kUint64 => "uint64"
  | .kSlice => "slice"
  | .kMap => "map"
  | .kIface => "interface"
  | .kOther n => n

/-- Go types as seen through reflection by GetArgumentTypeInfo.  The
classifier compares the whole type against exactly []byte and exactly
the unnamed empty interface, so slices and empty interfaces carry an
isNamed flag distinguishing a defined type from the unnamed one; for
every other shape only the kind and the element types matter.  Defined
integer and string types are identified with their kinds. -/
inductive GoType where
  | tPtr (elem : GoType)
  | tString
  | tBool
  | tInt | tInt8 | tInt16 | tInt32 | tInt64
  | tUint | tUint8 | tUint16 | tUint32 | tUint64
  | tSlice (isNamed : Bool) (elem : GoType)
  | tMap (key : GoType) (elem : GoType)
  | tIface (isNamed : Bool)
  | tOther (kindName : String)
deriving DecidableEq, Repr

/-- reflect.Type.Kind of the model type. -/
def GoType.kind : GoType → GoKind
  | .tPtr _ => .kPtr
  | .tString => .kString
  | .tBool => .kBool
  | .tInt => .kInt
  | .tInt8 => .kInt8
  | .tInt16 => .kInt16
  | .tInt32 => .kInt32
  | .tInt64 => .kInt64
  | .tUint => .kUint
  | .tUint8 => .kUint8
  | .tUint16 => .kUint16
  | .tUint32 => .kUint32
  | .tUint64 => .kUint64
  | .tSlice _ _ => .kSlice
  | .tMap _ _ => .kMap
  | .tIface _ => .kIface
  | .tOther n => .kOther n

/-- The rawType of the source: exactly the unnamed []byte. -/
def rawGoType : GoType := .tSlice false .tUint8

/-- The interfaceType of the source: exactly the unnamed empty
interface. -/
def interfaceGoType : GoType := .tIface false

/-- The body of GetArgumentTypeInfo of visitor/slice.go (lines 143-196)
after the single pointer unwrap: the identity checks against []byte and
the empty interface, then the kind switch.  The recursive call of the
source, GetArgumentTypeInfo(typ.Elem()), is inlined as the match on the
element that performs its pointer unwrap. -/
def classifyU : GoType → Except String ArgumentTypeInfo
  | .tSlice isNamed e =>
    -- the identity check typ == rawType can only succeed on a slice,
    -- so it is folded into this branch
    if isNamed = false ∧ e = .tUint8 then .ok .raw
    else
      let r := match e with
        | .tPtr u => classifyU u
        | e2 => classifyU e2
      (match r with
       | .ok itemType => .ok (.slice itemType)
       | .error msg => .error ("bad slice item type: " ++ msg))
  | .tIface isNamed =>
    -- the identity check typ == interfaceType can only succeed on an
    -- empty interface, so it is folded into this branch; a defined
    -- interface type falls to the unsupported-kind default
    if isNamed = false then .ok .any
    else .error ("type has unsupported kind " ++ GoKind.kIface.name)
  | .tString => .ok .str
  | .tUint8 => .ok .integer
  | .tUint16 => .ok .integer
  | .tUint => .ok .integer
  | .tUint32 => .ok .integer
  | .tUint64 => .ok .integer
  | .tInt8 => .ok .integer
  | .tInt16 => .ok .integer
  | .tInt => .ok .integer
  | .tInt32 => .ok .integer
  | .tInt64 => .ok .integer
  | .tBool => .ok .bool
  | .tMap k e =>
    if k.kind ≠ .kString then .error "map key must be string"
    else
      let r := match e with
        | .tPtr u => classifyU u
        | e2 => classifyU e2
      (match r with
       | .ok itemType => .ok (.map itemType)
       | .error msg => .error ("bad map item type: " ++ msg))
  | t => .error ("type has unsupported kind " ++ t.kind.name)
termination_by t => sizeOf t
decreasing_by all_goals (simp_wf <;> omega)

/-- GetArgumentTypeInfo of visitor/slice.go: a pointer is unwrapped
once, then the unwrapped type is classified. -/
def GetArgumentTypeInfo : GoType → Except String ArgumentTypeInfo
  | .tPtr u => classifyU u
  | t => classifyU t

/-- The integer kinds of the switch of the source. -/
def isIntegerKind (k : GoKind) : Bool :=
  k = .kUint8 ∨ k = .kUint16 ∨ k = .kUint ∨ k = .kUint32 ∨ k = .kUint64 ∨
  k = .kInt8 ∨ k = .kInt16 ∨ k = .kInt ∨ k = .kInt32 ∨ k = .kInt64

theorem classifyU_slice (isNamed : Bool) (e : GoType) :
    classifyU (.tSlice isNamed e) =
      (if isNamed = false ∧ e = .tUint8 then .ok .raw
       else
         match GetArgumentTypeInfo e with
         | .ok itemType => .ok (.slice itemType)
         | .error msg => .error ("bad slice item type: " ++ msg)) := by
  cases e <;> simp [classifyU, GetArgumentTypeInfo]

theorem classifyU_map (k e : GoType) :
    classifyU (.tMap k e) =
      (if k.kind ≠ .kString then .error "map key must be string"
       else
         match GetArgumentTypeInfo e with
         | .ok itemType => .ok (.map itemType)
         | .error msg => .error ("bad map item type: " ++ msg)) := by
  cases e <;> simp [classifyU, GetArgumentTypeInfo]

/-- C8: the classification table of GetArgumentTypeInfo: a pointer is
unwrapped first; exactly []byte yields Raw; exactly the empty interface
yields Any; string kinds yield String; all the signed and unsigned
integer kinds yield Integer; bool yields Bool; slice kinds recurse on
the element type; map kinds require a string key and recurse on the
value type; every remaining kind (pointer after the unwrap, defined
interface types, and all other kinds) yields the
"type has unsupported kind" error. -/
theorem getArgumentTypeInfo_classification :
    (∀ t : GoType, GetArgumentTypeInfo (.tPtr t) = classifyU t) ∧
    (GetArgumentTypeInfo rawGoType = .ok .raw) ∧
    (GetArgumentTypeInfo interfaceGoType = .ok .any) ∧
    (∀ t : GoType, t.kind = .kString → GetArgumentTypeInfo t = .ok .str) ∧
    (∀ t : GoType, isIntegerKind t.kind → GetArgumentTypeInfo t = .ok .integer) ∧
    (∀ t : GoType, t.kind = .kBool → GetArgumentTypeInfo t = .ok .bool) ∧
    (∀ (isNamed : Bool) (e : GoType), GoType.tSlice isNamed e ≠ rawGoType →
      GetArgumentTypeInfo (.tSlice isNamed e) =
        (match GetArgumentTypeInfo e with
         | .ok itemType => .ok (.slice itemType)
         | .error msg => .error ("bad slice item type: " ++ msg))) ∧
    (∀ k e : GoType,
      (k.kind ≠ .kString →
        GetArgumentTypeInfo (.tMap k e) = .error "map key must be string") ∧
      (k.kind = .kString →
        GetArgumentTypeInfo (.tMap k e) =
          (match GetArgumentTypeInfo e with
           | .ok itemType => .ok (.map itemType)
           | .error msg => .error ("bad map item type: " ++ msg)))) ∧
    (∀ t : GoType,
      t.kind = .kPtr ∨ (t.kind = .kIface ∧ t ≠ interfaceGoType) ∨
        (∃ n, t.kind = .kOther n) →
      classifyU t = .error ("type has unsupported kind " ++ t.kind.name)) := by
  refine ⟨fun t => rfl, ?_, ?_, ?_, ?_, ?_, ?_, ?_, ?_⟩
  · simp [GetArgumentTypeInfo, rawGoType, classifyU]
  · simp [GetArgumentTypeInfo, interfaceGoType, classifyU]
  · intro t h
    cases t <;> simp [GoType.kind] at h <;> simp [GetArgumentTypeInfo, classifyU]
  · intro t h
    cases t <;> simp [GoType.kind, isIntegerKind] at h <;>
      simp [GetArgumentTypeInfo, classifyU]
  · intro t h
    cases t <;> simp [GoType.kind] at h <;> simp [GetArgumentTypeInfo, classifyU]
  · intro isNamed e hne
    have : GetArgumentTypeInfo (.tSlice isNamed e) = classifyU (.tSlice isNamed e) := rfl
    rw [this, classifyU_slice]
    rw [if_neg]
    intro ⟨h1, h2⟩
    exact hne (by rw [h1, h2]; rfl)
  · intro k e
    constructor
    · intro h
      have : GetArgumentTypeInfo (.tMap k e) = classifyU (.tMap k e) := rfl
      rw [this, classifyU_map, if_pos h]
    · intro h
      have : GetArgumentTypeInfo (.tMap k e) = classifyU (.tMap k e) := rfl
      rw [this, classifyU_map, if_neg (by simp [h])]
  · intro t h
    cases t with
    | tPtr u => simp [classifyU, GoType.kind, GoKind.name]
    | tIface isNamed =>
      rcases h with h | ⟨_, hne⟩ | ⟨n, hn⟩
      · simp [GoType.kind] at h
      · cases isNamed with
        | false => exact absurd rfl hne
        | true => simp [classifyU, GoType.kind, GoKind.name]
      · simp [GoType.kind] at hn
    | tOther n => simp [classifyU, GoType.kind, GoKind.name]
    | _ => simp [GoType.kind] at h

/-- Witness for C8 at concrete types: a pointer to bool, a defined
(named) []byte slice recursing to an Integer element, a string-keyed
map, an int-keyed map, and a defined empty-interface type falling to
the unsupported-kind error. -/
theorem getArgumentTypeInfo_classification_witness :
    (GoType.tString.kind = .kString ∧ GetArgumentTypeInfo .tString = .ok .str) ∧
    (GoType.tSlice true .tUint8 ≠ rawGoType ∧
      GetArgumentTypeInfo (.tSlice true .tUint8) = .ok (.slice .integer)) ∧
    (GoType.tString.kind = .kString ∧
      GetArgumentTypeInfo (.tMap .tString .tBool) = .ok (.map .bool)) ∧
    (GoType.tInt.kind ≠ .kString ∧
      GetArgumentTypeInfo (.tMap .tInt .tBool) = .error "map key must be string") ∧
    ((GoType.tIface true).kind = .kIface ∧ GoType.tIface true ≠ interfaceGoType ∧
      classifyU (.tIface true) = .error ("type has unsupported kind interface")) := by
  have hstr := getArgumentTypeInfo_classification.2.2.2.1 .tString (by decide)
  have hslice := getArgumentTypeInfo_classification.2.2.2.2.2.2.1 true .tUint8 (by decide)
  have hint := getArgumentTypeInfo_classification.2.2.2.2.1 .tUint8 (by decide)
  have hmap := (getArgumentTypeInfo_classification.2.2.2.2.2.2.2.1 .tString .tBool).2
  have hbool := getArgumentTypeInfo_classification.2.2.2.2.2.1 .tBool (by decide)
  have hmapbad := (getArgumentTypeInfo_classification.2.2.2.2.2.2.2.1 .tInt .tBool).1
    (by decide)
  have hiface := getArgumentTypeInfo_classification.2.2.2.2.2.2.2.2 (.tIface true)
    (Or.inr (Or.inl ⟨rfl, by decide⟩))
  refine ⟨⟨rfl, hstr⟩, ⟨by decide, ?_⟩, ⟨rfl, ?_⟩, ⟨by decide, hmapbad⟩,
    ⟨rfl, by decide, hiface⟩⟩
  · rw [hslice, hint]
  · rw [hmap rfl, hbool]

/-! ### The comment/node visitor (visitor.go) -/

/-- A comment group of the host syntax tree: its source position and the
raw text of each comment in the group. -/
structure CommentGroup where
  pos : Int
  comments : List String
deriving DecidableEq, Repr

/-- A marker comment as collected by the visitor, tagged with the index
of the comment group it came from (the tag is bookkeeping for the
attribution theorems, not state of the source). -/
structure MarkerComment where
  grp : Nat
  text : String
  pos : Int
deriving DecidableEq, Repr

/-- Node kinds as the collector distinguishes them: the type switch of
parseMarkerComments refines TypeSpec by its inner type and Field and
FuncDecl by function type and receiver. -/
inductive CNodeKind where
  | file
  | genDecl
  | typeSpec (isStructType isInterfaceType : Bool)
  | field (isFuncType : Bool)
  | funcDecl (hasRecv : Bool)
deriving DecidableEq, Repr

/-- One visit of a node that reaches the comment attribution code of
Visitor.Visit (the kinds the walk skips, comment groups, identifiers, import
specs and function types, never produce such an event): the node
kind, its identity, its position, the position of its doc comment group
when it has one, and the file it belongs to. -/
structure NodeEvt where
  kind : CNodeKind
  id : Nat
  pos : Int
  docPos : Option Int
  fileId : Nat
deriving DecidableEq, Repr

/-- Where a marker comment was attributed by a visit step. -/
inductive Dest where
  | pkg
  | decl
  | node (id : Nat)
deriving DecidableEq, Repr

/-- Visitor state (visitor.go lines 7-14) plus an attribution log
recording, for every marker comment, the bucket its visit step put it
in; the log is bookkeeping for the theorems, not state of the source. -/
structure VState where
  nextCommentIndex : Int
  packageMarkers : List MarkerComment
  declarationMarkers : List MarkerComment
  nodeMarkers : List (Nat × List MarkerComment)
  attributionLog : List (Nat × Dest)
deriving DecidableEq, Repr

/-- newVisitor: empty state with the comment cursor at the start. -/
def initVState : VState :=
  { nextCommentIndex := 0, packageMarkers := [], declarationMarkers := [],
    nodeMarkers := [], attributionLog := [] }

/-- Modelled from the spec: isMarkerComment of the missing marker.go: a
comment whose text, after the leading double slash and optional
whitespace, begins with the plus sigil. -/
def isMarkerComment (text : String) : Bool :=
  match text.toList with
  | '/' :: '/' :: rest =>
    (match rest.dropWhile isWsChar with
     | '+' :: _ => true
     | _ => false)
  | _ => false

/-- Modelled from the spec: markerComment.Text of the missing marker.go:
the comment text after the double slash, trimmed of surrounding
whitespace. -/
def mcText (raw : String) : String :=
  String.mk ((((raw.toList.drop 2).dropWhile isWsChar).reverse.dropWhile
    isWsChar).reverse)

/-- Indexed lookup of a comment group, none when the index is outside
the list (the source would panic there; see getMarkerComments). -/
def getGroup (cs : List CommentGroup) (i : Int) : Option CommentGroup :=
  if i < 0 then none else cs.get? i.toNat

/-- The comment-advancing while loop of Visitor.Visit (lines 49-60)
before the final decrement: starting from index j, advance while the
comment group at the index lies before the node position. -/
def advanceLoop (cs : List CommentGroup) (pos : Int) : Nat → Nat → Nat
  | 0, j => j
  | fuel + 1, j =>
    match cs.get? j with
    | some g => if g.pos < pos then advanceLoop cs pos fuel (j + 1) else j
    | none => j

/-- getMarkerComments of visitor.go (lines 104-124): nil for negative
bounds, else the marker comments of the groups in the index range,
tagged with their group index.  The source indexes the slice directly
(out-of-range indices would panic); the model reads through getGroup,
and every caller stays in range. -/
def getMarkerComments (cs : List CommentGroup) (startIndex endIndex : Int) :
    List MarkerComment :=
  if startIndex < 0 ∨ endIndex < 0 then []
  else
    (List.range' startIndex.toNat (endIndex.toNat - startIndex.toNat)).flatMap
      (fun idx =>
        match cs.get? idx with
        | some g =>
          (g.comments.filter isMarkerComment).map
            (fun c => { grp := idx, text := c, pos := g.pos })
        | none => [])

/-- The result of the advancing while loop at one visit (lines 49-60),
entered with ample fuel. -/
def crLastRaw (cs : List CommentGroup) (e : NodeEvt) (next : Int) : Nat :=
  advanceLoop cs e.pos (cs.length + 1) next.toNat

/-- lastCommentIndex after the decrement of line 62. -/
def crLast (cs : List CommentGroup) (e : NodeEvt) (next : Int) : Int :=
  (crLastRaw cs e next : Int) - 1

/-- The doc-group comparison of line 67: the comment group at
lastCommentIndex is the doc comment group of the node. -/
def crDocMatch (cs : List CommentGroup) (e : NodeEvt) (next : Int) : Bool :=
  match e.docPos, getGroup cs (crLast cs e next) with
  | some dp, some g => g.pos == dp
  | _, _ => false

/-- markerCommentIndex after the doc adjustment of lines 65-69. -/
def crMci (cs : List CommentGroup) (e : NodeEvt) (next : Int) : Int :=
  if crDocMatch cs e next then crLast cs e next - 1 else crLast cs e next

/-- The comment-range computation of Visitor.Visit (lines 44-77): the
final lastCommentIndex together with markersFromComment and
markersFromDocument.  When every comment has been consumed the source
skips the block, lastCommentIndex stays at the cursor and both lists
are empty. -/
def computeRanges (cs : List CommentGroup) (next : Int) (e : NodeEvt) :
    Int × List MarkerComment × List MarkerComment :=
  if next < (cs.length : Int) then
    if crMci cs e next ≥ next then
      (crLast cs e next,
        getMarkerComments cs (crMci cs e next) (crMci cs e next + 1),
        getMarkerComments cs (crMci cs e next + 1) (crLast cs e next + 1))
    else
      (crLast cs e next, [],
        getMarkerComments cs (crMci cs e next + 1) (crLast cs e next + 1))
  else (next, [], [])

/-- One attribution log entry per marker comment placed in a bucket. -/
def logOf (ms : List MarkerComment) (d : Dest) : List (Nat × Dest) :=
  ms.map (fun m => (m.grp, d))

/-- Append markers to the entry of a node in the node-markers table,
creating the entry when absent (the Go map append). -/
def appendAssoc (table : List (Nat × List MarkerComment)) (key : Nat)
    (ms : List MarkerComment) : List (Nat × List MarkerComment) :=
  if table.any (fun p => p.1 = key) then
    table.map (fun p => if p.1 = key then (p.1, p.2 ++ ms) else p)
  else table ++ [(key, ms)]

/-- Lookup in the node-markers table. -/
def lookupAssoc {α : Type} (table : List (Nat × α)) (key : Nat) : Option α :=
  (table.find? (fun p => p.1 = key)).map (fun p => p.2)

/-- Visitor.Visit of visitor.go (lines 23-102) for one node event: the
range computation followed by the dispatch on the node kind and the
cursor update. -/
def visitStep (cs : List CommentGroup) (st : VState) (e : NodeEvt) : VState :=
  let (last, markersFromComment, markersFromDocument) :=
    computeRanges cs st.nextCommentIndex e
  let both := markersFromComment ++ markersFromDocument
  let st1 :=
    match e.kind with
    | .file =>
      { st with packageMarkers := st.packageMarkers ++ both,
                attributionLog := st.attributionLog ++ logOf both .pkg }
    | .typeSpec _ _ =>
      { st with
          nodeMarkers := appendAssoc st.nodeMarkers e.id (st.declarationMarkers ++ both),
          declarationMarkers := [],
          attributionLog := st.attributionLog ++ logOf both (.node e.id) }
    | .genDecl =>
      { st with declarationMarkers := st.declarationMarkers ++ both,
                attributionLog := st.attributionLog ++ logOf both .decl }
    | .field _ =>
      { st with nodeMarkers := appendAssoc st.nodeMarkers e.id both,
                attributionLog := st.attributionLog ++ logOf both (.node e.id) }
    | .funcDecl _ =>
      { st with nodeMarkers := appendAssoc st.nodeMarkers e.id both,
                attributionLog := st.attributionLog ++ logOf both (.node e.id) }
  { st1 with nextCommentIndex := last + 1 }

/-- ast.Walk with the Visitor: fold the visit step over the events of a
file in walk order. -/
def runVisitor (cs : List CommentGroup) (events : List NodeEvt) : VState :=
  events.foldl (visitStep cs) initVState

theorem mem_getMarkerComments {cs : List CommentGroup} {a b : Int} {m : MarkerComment}
    (h : m ∈ getMarkerComments cs a b) :
    a ≤ (m.grp : Int) ∧ (m.grp : Int) < b ∧ 0 ≤ a := by
  unfold getMarkerComments at h
  split at h
  · simp at h
  · next hc =>
    push_neg at hc
    obtain ⟨ha, hb⟩ := hc
    rw [List.mem_flatMap] at h
    obtain ⟨idx, hidx, hm⟩ := h
    rw [List.mem_range'_1] at hidx
    have hgrp : m.grp = idx := by
      revert hm
      cases cs.get? idx with
      | none => intro hm; simp at hm
      | some g =>
        intro hm
        simp only [List.mem_map] at hm
        obtain ⟨c, _, rfl⟩ := hm
        rfl
    subst hgrp
    omega

theorem advanceLoop_spec (cs : List CommentGroup) (pos : Int) :
    ∀ (fuel j : Nat), j ≤ cs.length → cs.length ≤ j + fuel →
      j ≤ advanceLoop cs pos fuel j ∧ advanceLoop cs pos fuel j ≤ cs.length ∧
        (∀ k, j ≤ k → k < advanceLoop cs pos fuel j →
          ∃ g, cs.get? k = some g ∧ g.pos < pos) := by
  intro fuel
  induction fuel with
  | zero =>
    intro j hj hlen
    have heq : advanceLoop cs pos 0 j = j := rfl
    rw [heq]
    exact ⟨le_refl j, hj, fun k hk1 hk2 => absurd hk2 (by omega)⟩
  | succ f ih =>
    intro j hj hlen
    cases hget : cs.get? j with
    | none =>
      have heq : advanceLoop cs pos (f + 1) j = j := by
        show (match cs.get? j with
              | some g => if g.pos < pos then advanceLoop cs pos f (j + 1) else j
              | none => j) = j
        rw [hget]
      rw [heq]
      exact ⟨le_refl j, hj, fun k hk1 hk2 => absurd hk2 (by omega)⟩
    | some g =>
      have heq0 : advanceLoop cs pos (f + 1) j =
          (match cs.get? j with
           | some g => if g.pos < pos then advanceLoop cs pos f (j + 1) else j
           | none => j) := rfl
      by_cases hlt : g.pos < pos
      · have heq : advanceLoop cs pos (f + 1) j = advanceLoop cs pos f (j + 1) := by
          rw [heq0, hget]; simp [hlt]
        rw [heq]
        have hjlen : j < cs.length := (List.get?_eq_some.mp hget).1
        obtain ⟨h1, h2, h3⟩ := ih (j + 1) (by omega) (by omega)
        refine ⟨by omega, h2, ?_⟩
        intro k hk1 hk2
        by_cases hkj : k = j
        · subst hkj; exact ⟨g, hget, hlt⟩
        · exact h3 k (by omega) hk2
      · have heq : advanceLoop cs pos (f + 1) j = j := by
          rw [heq0, hget]; simp [hlt]
        rw [heq]
        exact ⟨le_refl j, hj, fun k hk1 hk2 => absurd hk2 (by omega)⟩

theorem computeRanges_spec (cs : List CommentGroup) (next : Int) (e : NodeEvt)
    (processed : List NodeEvt)
    (hnn : 0 ≤ next)
    (hcons : ∀ j : Nat, (j : Int) < next → j < cs.length →
      ∃ e' ∈ processed, ∀ g, cs.get? j = some g → g.pos < e'.pos)
    (hdoc : ∀ e' ∈ processed, ∀ dp, e.docPos = some dp → e'.pos ≤ dp) :
    next - 1 ≤ (computeRanges cs next e).1 ∧
    (∀ m ∈ (computeRanges cs next e).2.1 ++ (computeRanges cs next e).2.2,
      next ≤ (m.grp : Int) ∧ (m.grp : Int) ≤ (computeRanges cs next e).1) ∧
    (∀ k : Nat, next ≤ (k : Int) → (k : Int) ≤ (computeRanges cs next e).1 →
      k < cs.length → ∀ g, cs.get? k = some g → g.pos < e.pos) := by
  by_cases hlen : next < (cs.length : Int)
  · have hj : next.toNat ≤ cs.length := by omega
    obtain ⟨hAL1, hAL2, hAL3⟩ :=
      advanceLoop_spec cs e.pos (cs.length + 1) next.toNat hj (by omega)
    have hlrdef : crLastRaw cs e next = advanceLoop cs e.pos (cs.length + 1) next.toNat :=
      rfl
    rw [← hlrdef] at hAL1 hAL2 hAL3
    have hlastdef : crLast cs e next = (crLastRaw cs e next : Int) - 1 := rfl
    have hlast_ge : next - 1 ≤ crLast cs e next := by omega
    have hmci_le : crMci cs e next ≤ crLast cs e next := by
      unfold crMci; split <;> omega
    have hmci_ge : crLast cs e next - 1 ≤ crMci cs e next := by
      unfold crMci; split <;> omega
    have hbad : crDocMatch cs e next = true → crLast cs e next = next - 1 → False := by
      intro hdmt hlastval
      unfold crDocMatch at hdmt
      rcases hedoc : e.docPos with _ | dp
      · rw [hedoc] at hdmt; simp at hdmt
      · rcases hgg : getGroup cs (crLast cs e next) with _ | g
        · rw [hedoc, hgg] at hdmt; simp at hdmt
        · rw [hedoc, hgg] at hdmt
          simp only [beq_iff_eq] at hdmt
          have hlnn : 0 ≤ crLast cs e next := by
            by_contra hneg
            unfold getGroup at hgg
            rw [if_pos (by omega)] at hgg
            exact Option.noConfusion hgg
          have hgets : cs.get? (crLast cs e next).toNat = some g := by
            unfold getGroup at hgg
            rw [if_neg (by omega)] at hgg
            exact hgg
          have hjlt : ((crLast cs e next).toNat : Int) < next := by omega
          have hjlen : (crLast cs e next).toNat < cs.length :=
            (List.get?_eq_some.mp hgets).1
          obtain ⟨e', he'mem, he'⟩ := hcons (crLast cs e next).toNat hjlt hjlen
          have h1 : g.pos < e'.pos := he' g hgets
          have h2 : e'.pos ≤ dp := hdoc e' he'mem dp hedoc
          omega
    have hcase : crMci cs e next ≥ next ∨
        (crMci cs e next < next ∧ crLast cs e next = next - 1 ∧
          crDocMatch cs e next = false) ∨
        (crMci cs e next < next ∧ crLast cs e next = next ∧
          crDocMatch cs e next = true) := by
      by_cases hge : crMci cs e next ≥ next
      · exact Or.inl hge
      · by_cases hdmv : crDocMatch cs e next = true
        · have hmci' : crMci cs e next = crLast cs e next - 1 := by
            unfold crMci; rw [hdmv]; simp
          by_cases hl : crLast cs e next = next - 1
          · exact (hbad hdmv hl).elim
          · exact Or.inr (Or.inr ⟨by omega, by omega, hdmv⟩)
        · have hmci' : crMci cs e next = crLast cs e next := by
            unfold crMci; rw [Bool.not_eq_true] at hdmv; rw [hdmv]; simp
          refine Or.inr (Or.inl ⟨by omega, by omega, by
            rw [Bool.not_eq_true] at hdmv; exact hdmv⟩)
    have hcr : computeRanges cs next e =
        (if crMci cs e next ≥ next then
          (crLast cs e next,
            getMarkerComments cs (crMci cs e next) (crMci cs e next + 1),
            getMarkerComments cs (crMci cs e next + 1) (crLast cs e next + 1))
         else
          (crLast cs e next, [],
            getMarkerComments cs (crMci cs e next + 1) (crLast cs e next + 1))) := by
      unfold computeRanges
      rw [if_pos hlen]
    refine ⟨?_, ?_, ?_⟩
    · rw [hcr]
      split
      · show next - 1 ≤ crLast cs e next
        omega
      · show next - 1 ≤ crLast cs e next
        omega
    · rw [hcr]
      rcases hcase with hge | ⟨hlt, hlv, hdmv⟩ | ⟨hlt, hlv, hdmv⟩
      · rw [if_pos hge]
        intro m hm
        simp only [List.mem_append] at hm
        rcases hm with hm | hm
        · obtain ⟨h1, h2, h3⟩ := mem_getMarkerComments hm
          exact ⟨by omega, by omega⟩
        · obtain ⟨h1, h2, h3⟩ := mem_getMarkerComments hm
          exact ⟨by omega, by omega⟩
      · rw [if_neg (by omega)]
        intro m hm
        simp only [List.mem_append, List.not_mem_nil, false_or] at hm
        obtain ⟨h1, h2, h3⟩ := mem_getMarkerComments hm
        have hmci' : crMci cs e next = crLast cs e next := by
          unfold crMci; rw [hdmv]; simp
        exact ⟨by omega, by omega⟩
      · rw [if_neg (by omega)]
        intro m hm
        simp only [List.mem_append, List.not_mem_nil, false_or] at hm
        obtain ⟨h1, h2, h3⟩ := mem_getMarkerComments hm
        have hmci' : crMci cs e next = crLast cs e next - 1 := by
          unfold crMci; rw [hdmv]; simp
        exact ⟨by omega, by omega⟩
    · intro k hk1 hk2 hk3 g hg
      rw [hcr] at hk2
      have hk2' : (k : Int) ≤ crLast cs e next := by
        split at hk2
        · exact hk2
        · exact hk2
      have hklt : k < crLastRaw cs e next := by omega
      have hkge : next.toNat ≤ k := by omega
      obtain ⟨g', hget', hlt'⟩ := hAL3 k hkge hklt
      rw [hget'] at hg
      cases hg
      exact hlt'
  · have hcr : computeRanges cs next e = (next, [], []) := by
      unfold computeRanges
      rw [if_neg hlen]
    rw [hcr]
    refine ⟨by omega, by simp, ?_⟩
    intro k hk1 hk2 hk3 g hget
    omega

/-- One event is doc-compatible after another: any doc group position of
the later node lies at or after the earlier node position.  In a real
host syntax tree this always holds: the doc group of a node sits
immediately before the node, after every earlier node of the walk. -/
def docAfter (a b : NodeEvt) : Prop :=
  ∀ dp, b.docPos = some dp → a.pos ≤ dp

/-- Invariant carried along the walk: the comment cursor is not
negative, every logged group index lies below the cursor, the log maps
each group to at most one destination, and every already-consumed
comment group lies before some processed node. -/
structure VInv (cs : List CommentGroup) (st : VState) (processed : List NodeEvt) :
    Prop where
  nonneg : 0 ≤ st.nextCommentIndex
  logLt : ∀ p ∈ st.attributionLog, (p.1 : Int) < st.nextCommentIndex
  logFun : ∀ g d d', (g, d) ∈ st.attributionLog → (g, d') ∈ st.attributionLog → d = d'
  consumed : ∀ j : Nat, (j : Int) < st.nextCommentIndex → j < cs.length →
    ∃ e' ∈ processed, ∀ g, cs.get? j = some g → g.pos < e'.pos

theorem mem_logOf {ms : List MarkerComment} {d : Dest} {p : Nat × Dest}
    (h : p ∈ logOf ms d) : ∃ m ∈ ms, p = (m.grp, d) := by
  unfold logOf at h
  rw [List.mem_map] at h
  obtain ⟨m, hm, rfl⟩ := h
  exact ⟨m, hm, rfl⟩

theorem visitStep_next (cs : List CommentGroup) (st : VState) (e : NodeEvt) :
    (visitStep cs st e).nextCommentIndex =
      (computeRanges cs st.nextCommentIndex e).1 + 1 := by
  unfold visitStep
  rcases computeRanges cs st.nextCommentIndex e with ⟨last, fc, fd⟩
  cases e.kind <;> rfl

theorem visitStep_log (cs : List CommentGroup) (st : VState) (e : NodeEvt) :
    ∃ d, (visitStep cs st e).attributionLog =
      st.attributionLog ++
        logOf ((computeRanges cs st.nextCommentIndex e).2.1 ++
          (computeRanges cs st.nextCommentIndex e).2.2) d := by
  unfold visitStep
  rcases computeRanges cs st.nextCommentIndex e with ⟨last, fc, fd⟩
  cases e.kind with
  | file => exact ⟨.pkg, rfl⟩
  | genDecl => exact ⟨.decl, rfl⟩
  | typeSpec isS isI => exact ⟨.node e.id, rfl⟩
  | field b => exact ⟨.node e.id, rfl⟩
  | funcDecl b => exact ⟨.node e.id, rfl⟩

theorem visitStep_inv (cs : List CommentGroup) (st : VState) (processed : List NodeEvt)
    (e : NodeEvt) (hInv : VInv cs st processed)
    (hdoc : ∀ e' ∈ processed, docAfter e' e) :
    VInv cs (visitStep cs st e) (processed ++ [e]) := by
  obtain ⟨hCR1, hCR2, hCR3⟩ :=
    computeRanges_spec cs st.nextCommentIndex e processed hInv.nonneg hInv.consumed
      (fun e' he' dp hdp => hdoc e' he' dp hdp)
  obtain ⟨d, hlog⟩ := visitStep_log cs st e
  have hnext := visitStep_next cs st e
  constructor
  · rw [hnext]; have := hInv.nonneg; omega
  · intro p hp
    rw [hlog] at hp
    rw [hnext]
    rcases List.mem_append.mp hp with hp | hp
    · have := hInv.logLt p hp
      omega
    · obtain ⟨m, hm, rfl⟩ := mem_logOf hp
      have := (hCR2 m hm).2
      omega
  · intro g d1 d2 h1 h2
    rw [hlog] at h1 h2
    rcases List.mem_append.mp h1 with h1 | h1 <;>
      rcases List.mem_append.mp h2 with h2 | h2
    · exact hInv.logFun g d1 d2 h1 h2
    · obtain ⟨m, hm, hmeq⟩ := mem_logOf h2
      have hglt := hInv.logLt _ h1
      have hgge := (hCR2 m hm).1
      cases hmeq
      simp only at hglt
      omega
    · obtain ⟨m, hm, hmeq⟩ := mem_logOf h1
      have hglt := hInv.logLt _ h2
      have hgge := (hCR2 m hm).1
      cases hmeq
      simp only at hglt
      omega
    · obtain ⟨m1, hm1, hm1eq⟩ := mem_logOf h1
      obtain ⟨m2, hm2, hm2eq⟩ := mem_logOf h2
      injection hm1eq with h1a h1b
      injection hm2eq with h2a h2b
      rw [h1b, h2b]
  · intro j hj hjlen
    rw [hnext] at hj
    by_cases hjold : (j : Int) < st.nextCommentIndex
    · obtain ⟨e', he', hbound⟩ := hInv.consumed j hjold hjlen
      exact ⟨e', List.mem_append_left _ he', hbound⟩
    · refine ⟨e, List.mem_append_right _ (by simp), ?_⟩
      intro g hg
      exact hCR3 j (by omega) (by omega) hjlen g hg

theorem runVisitor_fold_inv (cs : List CommentGroup) :
    ∀ (events : List NodeEvt) (st : VState) (processed : List NodeEvt),
      VInv cs st processed →
      (∀ e' ∈ processed, ∀ e ∈ events, docAfter e' e) →
      List.Pairwise docAfter events →
      VInv cs (events.foldl (visitStep cs) st) (processed ++ events) := by
  intro events
  induction events with
  | nil => intro st processed hInv _ _; simpa using hInv
  | cons e rest ih =>
    intro st processed hInv hpe hpw
    rw [List.foldl_cons]
    rcases List.pairwise_cons.mp hpw with ⟨hhead, htail⟩
    have hstep := visitStep_inv cs st processed e hInv
      (fun e' he' => hpe e' he' e (by simp))
    have hres := ih (visitStep cs st e) (processed ++ [e]) hstep
      (fun e' he' e2 he2 => by
        rcases List.mem_append.mp he' with h | h
        · exact hpe e' h e2 (by simp [he2])
        · have : e' = e := by simpa using h
          subst this
          exact hhead e2 he2)
      htail
    simpa [List.append_assoc] using hres

/-- The comment groups of the C5 counterexample file: three marker
comment groups before one declaration, the third group being the doc
group of the declaration. -/
def cex5Comments : List CommentGroup :=
  [⟨10, ["// +a"]⟩, ⟨20, ["// +b"]⟩, ⟨30, ["// +c"]⟩]

/-- The C5 counterexample walk: the file node (its position before all
three groups), then one GenDecl whose doc group sits at position 30. -/
def cex5Events : List NodeEvt :=
  [⟨.file, 0, 5, none, 0⟩, ⟨.genDecl, 1, 40, some 30, 0⟩]

/-- C5 counterexample: the claim says every comment group lands in
exactly one bucket or contains no marker comments.  On this file the
group at index 0 is a marker comment group, yet after the walk it
appears in none of the buckets: packageMarkers is empty, nodeMarkers is
empty, and declarationMarkers holds only the groups at indexes 1 and 2
(the visit of the GenDecl attributed only the two groups immediately
before it and advanced the cursor past group 0). -/
theorem visitor_drops_floating_marker_group :
    isMarkerComment "// +a" = true ∧
    (runVisitor cex5Comments cex5Events).packageMarkers = [] ∧
    (runVisitor cex5Comments cex5Events).nodeMarkers = [] ∧
    (runVisitor cex5Comments cex5Events).declarationMarkers =
      [⟨1, "// +b", 20⟩, ⟨2, "// +c", 30⟩] ∧
    (runVisitor cex5Comments cex5Events).attributionLog =
      [(1, .decl), (2, .decl)] :=
  ⟨rfl, rfl, rfl, rfl, rfl⟩

/-- C5 amended: no comment group is ever attributed to two different
buckets (each group contributes to at most one of packageMarkers,
declarationMarkers, or the nodeMarkers of one node), provided the doc
group of every visited node lies at or after all earlier node positions
(which holds for host syntax trees, where a doc group sits immediately
before its node); marker comment groups can however be left wholly
unattributed, as the counterexample shows. -/
theorem comment_group_attributed_at_most_once (cs : List CommentGroup)
    (events : List NodeEvt) (hdoc : List.Pairwise docAfter events) :
    ∀ g d d', (g, d) ∈ (runVisitor cs events).attributionLog →
      (g, d') ∈ (runVisitor cs events).attributionLog → d = d' := by
  have hinit : VInv cs initVState [] := by
    constructor
    · simp [initVState]
    · intro p hp; simp [initVState] at hp
    · intro g d d' h1 h2; simp [initVState] at h1
    · intro j hj _; simp [initVState] at hj; omega
  have h := runVisitor_fold_inv cs events initVState [] hinit (by simp) hdoc
  intro g d d' h1 h2
  exact h.logFun g d d' h1 h2

/-- The S3 file: one marker group before a parenthesized type block that
holds two type specs. -/
def s3Comments : List CommentGroup := [⟨10, ["// +jsonTag"]⟩]

/-- The S3 walk: file, GenDecl with the marker group as its doc, then
two TypeSpec nodes of the same block. -/
def s3Events : List NodeEvt :=
  [⟨.file, 0, 5, none, 0⟩, ⟨.genDecl, 1, 20, some 10, 0⟩,
   ⟨.typeSpec true false, 2, 30, none, 0⟩, ⟨.typeSpec true false, 3, 40, none, 0⟩]

/-- Witness for the amended C5 claim on the concrete S3 walk. -/
theorem comment_group_attributed_at_most_once_witness :
    List.Pairwise docAfter s3Events ∧ Dest.decl = Dest.decl := by
  have hpw : List.Pairwise docAfter s3Events :=
    List.Pairwise.cons
      (fun b hb dp hdp => by
        simp only [List.mem_cons, List.not_mem_nil, or_false] at hb
        rcases hb with rfl | rfl | rfl <;> simp_all <;> omega)
      (List.Pairwise.cons
        (fun b hb dp hdp => by
          simp only [List.mem_cons, List.not_mem_nil, or_false] at hb
          rcases hb with rfl | rfl <;> simp_all)
        (List.Pairwise.cons
          (fun b hb dp hdp => by
            simp only [List.mem_cons, List.not_mem_nil, or_false] at hb
            subst hb
            simp_all)
          (List.pairwise_singleton _ _)))
  exact ⟨hpw, comment_group_attributed_at_most_once s3Comments s3Events hpw 0
    .decl .decl (by decide) (by decide)⟩

theorem lookupAssoc_map_append (k : Nat) (ms : List MarkerComment) :
    ∀ (t : List (Nat × List MarkerComment)),
      t.any (fun p => p.1 = k) = true →
      lookupAssoc (t.map (fun p => if p.1 = k then (p.1, p.2 ++ ms) else p)) k =
        some ((lookupAssoc t k).getD [] ++ ms) := by
  intro t
  induction t with
  | nil => intro hany; simp at hany
  | cons p rest ih =>
    intro hany
    by_cases hp : p.1 = k
    · simp [lookupAssoc, List.find?_cons, hp]
    · have hany' : rest.any (fun p => p.1 = k) = true := by
        simp only [List.any_cons] at hany
        rcases Bool.or_eq_true_iff.mp hany with h | h
        · exact absurd (of_decide_eq_true h) hp
        · exact h
      have := ih hany'
      simp only [lookupAssoc, List.map_cons, if_neg hp, List.find?_cons] at this ⊢
      have hdp : (decide (p.1 = k)) = false := by simp [hp]
      rw [hdp]
      exact this

theorem lookupAssoc_append_single (k : Nat) (ms : List MarkerComment) :
    ∀ (t : List (Nat × List MarkerComment)),
      (∀ x ∈ t, ¬(x.1 = k)) →
      lookupAssoc (t ++ [(k, ms)]) k = some ms := by
  intro t
  induction t with
  | nil => intro _; simp [lookupAssoc]
  | cons p rest ih =>
    intro hnone
    have hdp : (decide (p.1 = k)) = false := by
      simp [hnone p (by simp)]
    have := ih (fun x hx => hnone x (by simp [hx]))
    simp only [lookupAssoc, List.cons_append, List.find?_cons, hdp] at this ⊢
    exact this

theorem lookupAssoc_none (k : Nat) :
    ∀ (t : List (Nat × List MarkerComment)),
      (∀ x ∈ t, ¬(x.1 = k)) → lookupAssoc t k = none := by
  intro t
  induction t with
  | nil => intro _; simp [lookupAssoc]
  | cons p rest ih =>
    intro hnone
    have hdp : (decide (p.1 = k)) = false := by
      simp [hnone p (by simp)]
    have := ih (fun x hx => hnone x (by simp [hx]))
    simp only [lookupAssoc, List.find?_cons, hdp] at this ⊢
    exact this

theorem lookupAssoc_appendAssoc (t : List (Nat × List MarkerComment)) (k : Nat)
    (ms : List MarkerComment) :
    lookupAssoc (appendAssoc t k ms) k =
      some ((lookupAssoc t k).getD [] ++ ms) := by
  unfold appendAssoc
  by_cases hany : t.any (fun p => p.1 = k) = true
  · rw [if_pos hany]
    exact lookupAssoc_map_append k ms t hany
  · rw [if_neg hany]
    have hnone : ∀ x ∈ t, ¬(x.1 = k) := by
      intro x hx hxk
      exact hany (List.any_eq_true.mpr ⟨x, hx, by simp [hxk]⟩)
    rw [lookupAssoc_append_single k ms t hnone, lookupAssoc_none k t hnone]
    rfl

/-- C6: on a TypeSpec visit the node receives the pending
declarationMarkers prepended before its own leading and doc markers,
and the pending list is cleared — for every visitor state; consequently
in the S3 walk (a marker before a GenDecl holding two TypeSpecs) the
first TypeSpec carries the jsonTag marker and the second TypeSpec
carries nothing. -/
theorem genDecl_markers_propagate_to_first_typeSpec_only (cs : List CommentGroup)
    (st : VState) (e : NodeEvt) (isS isI : Bool) (hk : e.kind = .typeSpec isS isI) :
    ((visitStep cs st e).declarationMarkers = [] ∧
      lookupAssoc (visitStep cs st e).nodeMarkers e.id =
        some ((lookupAssoc st.nodeMarkers e.id).getD [] ++ st.declarationMarkers ++
          (computeRanges cs st.nextCommentIndex e).2.1 ++
          (computeRanges cs st.nextCommentIndex e).2.2)) ∧
    (lookupAssoc (runVisitor s3Comments s3Events).nodeMarkers 2 =
        some [⟨0, "// +jsonTag", 10⟩] ∧
      lookupAssoc (runVisitor s3Comments s3Events).nodeMarkers 3 = some []) := by
  refine ⟨?_, rfl, rfl⟩
  unfold visitStep
  rcases computeRanges cs st.nextCommentIndex e with ⟨last, fc, fd⟩
  rw [hk]
  refine ⟨rfl, ?_⟩
  show lookupAssoc
      (appendAssoc st.nodeMarkers e.id (st.declarationMarkers ++ (fc ++ fd))) e.id = _
  rw [lookupAssoc_appendAssoc]
  simp [List.append_assoc]

/-- Witness for C6 at a concrete TypeSpec visit. -/
theorem genDecl_markers_propagate_to_first_typeSpec_only_witness :
    (NodeEvt.mk (.typeSpec true false) 2 30 none 0).kind = .typeSpec true false ∧
    (visitStep s3Comments initVState
      (NodeEvt.mk (.typeSpec true false) 2 30 none 0)).declarationMarkers = [] :=
  ⟨rfl, (genDecl_markers_propagate_to_first_typeSpec_only s3Comments initVState
    (NodeEvt.mk (.typeSpec true false) 2 30 none 0) true false rfl).1.1⟩

/-! ### The collector (collector.go) -/

/-- Modelled from the spec: the Level bitset over the ten attachment
levels (spec 3); the bits are independent, so the bitset is a record of
ten booleans and the source test Level&X != X becomes the negation of
the corresponding field. -/
structure Level where
  packageL : Bool := false
  importL : Bool := false
  typeL : Bool := false
  structTypeL : Bool := false
  interfaceTypeL : Bool := false
  fieldL : Bool := false
  functionL : Bool := false
  methodL : Bool := false
  structMethodL : Bool := false
  interfaceMethodL : Bool := false
deriving DecidableEq, Repr

/-- The level filter of parseMarkerComments (collector.go lines
111-154): true when the switch hits a continue, dropping the marker.
Each clause is the literal transcription of the source conditions,
including the negations of the Field-with-func-type and
FuncDecl-with-receiver cases. -/
def levelSkip (kind : CNodeKind) (l : Level) : Bool :=
  match kind with
  | .file => !l.packageL
  | .genDecl => !l.importL
  | .typeSpec isStructType isInterfaceType =>
    if isStructType ∧ (!l.typeL ∧ !l.structTypeL) then true
    else if isInterfaceType ∧ (!l.typeL ∧ !l.interfaceTypeL) then true
    else false
  | .field isFuncType =>
    if !isFuncType ∧ !l.fieldL then true
    else if isFuncType ∧ !((!l.methodL) ∨ (!l.interfaceMethodL)) then true
    else false
  | .funcDecl hasRecv =>
    if hasRecv ∧ !((!l.methodL) ∨ (!l.structMethodL)) then true
    else if !hasRecv ∧ !l.functionL then true
    else false

/-- A level holding only the Field bit. -/
def fieldOnlyLevel : Level := { fieldL := true }

/-- A level holding only the Function bit. -/
def functionOnlyLevel : Level := { functionL := true }

/-- A level holding Method, StructMethod and InterfaceMethod. -/
def allMethodLevels : Level :=
  { methodL := true, structMethodL := true, interfaceMethodL := true }

/-- C3: the claim says a marker on a func-typed Field is kept only when
its Level has Method or InterfaceMethod, and one on a FuncDecl with a
receiver only when its Level has Method or StructMethod.  The code has
the polarity inverted (spec 9 flags this): a Level with only the Field
bit is NOT dropped on a func-typed Field, a Level with only the
Function bit is NOT dropped on a method FuncDecl, while a Level that
carries all the method bits IS dropped in both cases. -/
theorem level_filter_polarity_inverted :
    (levelSkip (.field true) fieldOnlyLevel = false ∧
      fieldOnlyLevel.methodL = false ∧ fieldOnlyLevel.interfaceMethodL = false) ∧
    (levelSkip (.funcDecl true) functionOnlyLevel = false ∧
      functionOnlyLevel.methodL = false ∧ functionOnlyLevel.structMethodL = false) ∧
    (levelSkip (.field true) allMethodLevels = true ∧
      levelSkip (.funcDecl true) allMethodLevels = true) := by
  decide

/-- Parsed marker values: Go interface values are either plain parsed
values or ImportMarker records. -/
structure ImportMarker where
  pkgId : String
  Alias : String
  Value : String
  pkgVersion : String
deriving DecidableEq, Repr

/-- The zero ImportMarker (what a missing Go map key yields). -/
def zeroImportMarker : ImportMarker := ⟨"", "", "", ""⟩

def ImportMarker.GetPkgId (m : ImportMarker) : String := m.pkgId

inductive MValue where
  | ofValue (v : Value)
  | ofImport (im : ImportMarker)

/-- MarkerValues: ordered map from marker name to parsed values. -/
abbrev MarkerValues := List (String × List MValue)

/-- The node-to-values result table of the collector. -/
abbrev NodeValues := List (Nat × MarkerValues)

/-- Modelled from the spec: the output shape of a Definition (spec 3):
either a single unnamed field of some argument type, a field-less
marker, or the shape of the built-in import marker.  Definitions with
several named fields are not needed by the scenarios verified here. -/
inductive OutputShape where
  | anonymous (ti : ArgumentTypeInfo)
  | unitOutput
  | importOutput

/-- Modelled from the spec: a Definition (spec 3): marker name, owning
package id (empty for built-ins), attachment levels and output shape. -/
structure Definition where
  Name : String
  PkgId : String
  Level : Level
  Output : OutputShape

abbrev Registry := List Definition

def ImportMarkerName : String := "import"

/-- Modelled from the spec: splitMarker of the missing marker.go splits
a marker text into its name and its argument text: the leading plus is
stripped and the text is split at the first equals sign. -/
def splitMarker (text : String) : String × String :=
  let t :=
    match text.toList with
    | '+' :: rest => rest
    | cs => cs
  let name := t.takeWhile (fun c => c ≠ '=')
  let rest := t.dropWhile (fun c => c ≠ '=')
  match rest with
  | '=' :: args => (String.mk name, String.mk args)
  | _ => (String.mk name, "")

/-- The alias-name extraction of the main pass (collector.go lines
93-96): the marker name cut at the first colon and the first space. -/
def aliasNameOf (markerText : String) : String :=
  let name := (splitMarker markerText).1
  String.mk ((name.toList.takeWhile (fun c => c ≠ ':')).takeWhile (fun c => c ≠ ' '))

def listStartsWith : List Char → List Char → Bool
  | _, [] => true
  | [], _ :: _ => false
  | c :: cs, p :: ps => c = p ∧ listStartsWith cs ps

def replaceOnceAux : Nat → List Char → List Char → List Char → List Char
  | 0, s, _, _ => s
  | _, [], _, _ => []
  | fuel + 1, c :: rest, pat, rep =>
    if listStartsWith (c :: rest) pat then rep ++ (c :: rest).drop pat.length
    else c :: replaceOnceAux fuel rest pat rep

/-- strings.Replace with count 1: replace the first occurrence of the
pattern. -/
def replaceOnce (s pat rep : String) : String :=
  String.mk (replaceOnceAux (s.toList.length + 1) s.toList pat.toList rep.toList)

/-- Modelled from the spec: Registry Lookup (spec 4.3): split the
marker text into its name; with an empty pkgId only the built-ins are
searched, otherwise the pkgId namespace is tried first and the
built-ins after. -/
def Lookup (reg : Registry) (markerText pkgId : String) : Option Definition :=
  let name := (splitMarker markerText).1
  if pkgId = "" then reg.find? (fun d => d.Name = name ∧ d.PkgId = "")
  else
    match reg.find? (fun d => d.Name = name ∧ d.PkgId = pkgId) with
    | some d => some d
    | none => reg.find? (fun d => d.Name = name ∧ d.PkgId = "")

/-- Split a character list at every occurrence of a separator. -/
def splitOnChar (sep : Char) (cs : List Char) : List (List Char) :=
  cs.foldr
    (fun c acc =>
      match acc with
      | [] => if c = sep then [[], []] else [[c]]
      | hd :: tl => if c = sep then [] :: hd :: tl else (c :: hd) :: tl)
    [[]]

def trimWsChars (cs : List Char) : List Char :=
  ((cs.dropWhile isWsChar).reverse.dropWhile isWsChar).reverse

/-- Modelled from the spec: parsing and validating the built-in import
marker (spec 6): a positional package id, then named assignments for
Alias, Value and the version; Value is required (the Validate contract
of the ImportMarker). -/
def parseImportMarkerText (argsText : String) : Except String ImportMarker :=
  match splitOnChar ',' argsText.toList with
  | [] => .error "import marker requires a package id"
  | pkgPart :: rest =>
    let im0 : ImportMarker := ⟨String.mk (trimWsChars pkgPart), "", "", ""⟩
    let im := rest.foldl
      (fun im kv =>
        match splitOnChar '=' kv with
        | [k, v] =>
          let key := String.mk (trimWsChars k)
          let vv := String.mk (trimWsChars v)
          if key = "Alias" then { im with Alias := vv }
          else if key = "Value" then { im with Value := vv }
          else if key = "Version" ∨ key = "PkgVersion" then { im with pkgVersion := vv }
          else im
        | _ => im)
      im0
    if im.Value = "" then .error "field Value is required"
    else if im.pkgId = "" then .error "import marker requires a package id"
    else .ok im

/-- The fuel given to the argument parser by the definition parser. -/
def parseFuel : Nat := 200

/-- Modelled from the spec: Definition.Parse (spec 4.3): construct a
fresh output value and parse the marker argument text into it; a single
unnamed field parses the whole body as that field type, and lexical
errors recorded through Expect also fail the parse. -/
def Definition.Parse (d : Definition) (markerText : String) : Except String MValue :=
  let args := (splitMarker markerText).2
  match d.Output with
  | .unitOutput => .ok (.ofValue .vUnit)
  | .importOutput => (parseImportMarkerText args).map .ofImport
  | .anonymous ti =>
    let r := ArgumentTypeInfo.Parse parseFuel ti (mkScanner args.toList) (zeroValue ti)
    (match r.err with
     | some e => .error e
     | none =>
       if r.scanner.errorCount > 0 then .error "marker argument parse error"
       else .ok (.ofValue r.out))

/-- Modelled from the spec: a parse error of the ErrorList (spec 4.6):
the underlying message with the source position of the marker. -/
structure PErr where
  msg : String
  pos : Int
deriving DecidableEq, Repr

def toParseError (err : String) (pos : Int) : PErr := ⟨err, pos⟩

/-- Modelled from the spec: NewErrorList returns nil for an empty error
list and the collection otherwise (a single error is flattened in the
source; the model keeps the list shape). -/
def NewErrorList (errs : List PErr) : Option (List PErr) :=
  if errs.isEmpty then none else some errs

/-- A source file as the collector consumes it: its file-set identity,
the node identity of the *ast.File node, its comment groups and its
walk events. -/
structure MFile where
  fileId : Nat
  fileNodeId : Nat
  comments : List CommentGroup
  events : List NodeEvt

/-- A Package: the ordered file list (pkg.Syntax). -/
structure MPackage where
  Syntax : List MFile

/-- pkg.Fset.File and the node type switch: recover the event of a node
id (every node that carries markers was visited). -/
def findNodeEvt (pkg : MPackage) (id : Nat) : Option NodeEvt :=
  (pkg.Syntax.flatMap (fun f => f.events)).find? (fun e => e.id = id)

/-- Replace-or-insert into a Nat-keyed table (a Go map assignment). -/
def setAssoc {α : Type} (t : List (Nat × α)) (k : Nat) (v : α) : List (Nat × α) :=
  if t.any (fun p => p.1 = k) then t.map (fun p => if p.1 = k then (k, v) else p)
  else t ++ [(k, v)]

/-- Replace-or-insert into a String-keyed table (a Go map assignment). -/
def setStrAssoc {α : Type} (t : List (String × α)) (k : String) (v : α) :
    List (String × α) :=
  if t.any (fun p => p.1 = k) then t.map (fun p => if p.1 = k then (k, v) else p)
  else t ++ [(k, v)]

/-- Lookup in a String-keyed table. -/
def lookupStr {α : Type} (t : List (String × α)) (k : String) : Option α :=
  (t.find? (fun p => p.1 = k)).map (fun p => p.2)

/-- Append a value under a marker name (the Go map append of line 174). -/
def appendMV (mv : MarkerValues) (name : String) (v : MValue) : MarkerValues :=
  if mv.any (fun p => p.1 = name) then
    mv.map (fun p => if p.1 = name then (p.1, p.2 ++ [v]) else p)
  else mv ++ [(name, [v])]

/-- collectFileMarkerComments of collector.go (lines 51-57): run the
visitor over the file and assign the package markers to the file node
entry. -/
def collectFileMarkerComments (file : MFile) : List (Nat × List MarkerComment) :=
  let st := runVisitor file.comments file.events
  setAssoc st.nodeMarkers file.fileNodeId st.packageMarkers

/-- collectPackageMarkerComments of collector.go (lines 37-49): union
the per-file tables, appending markers per node. -/
def collectPackageMarkerComments (pkg : MPackage) : List (Nat × List MarkerComment) :=
  pkg.Syntax.foldl
    (fun acc f =>
      (collectFileMarkerComments f).foldl (fun acc2 p => appendAssoc acc2 p.1 p.2) acc)
    []

/-- parseImportMarkerComments of collector.go (lines 186-234):
the import pre-pass, looking every marker up with an empty pkgId and
keeping only the built-in import markers; parse failures are
accumulated.  The model iterates the node table in list order where Go
iterates its map in unspecified order. -/
def parseImportMarkerComments (reg : Registry) (pkg : MPackage)
    (nodeMarkerComments : List (Nat × List MarkerComment)) :
    NodeValues × Option (List PErr) :=
  let step := fun (acc : NodeValues × List PErr) (entry : Nat × List MarkerComment) =>
    let mvAndErrs := entry.2.foldl
      (fun (acc2 : MarkerValues × List PErr) (mc : MarkerComment) =>
        let markerText := mcText mc.text
        match Lookup reg markerText "" with
        | none => acc2
        | some d =>
          if d.Name ≠ ImportMarkerName then acc2
          else
            match d.Parse markerText with
            | .error e => (acc2.1, acc2.2 ++ [toParseError e mc.pos])
            | .ok v => (appendMV acc2.1 d.Name v, acc2.2))
      ([], acc.2)
    if mvAndErrs.1.isEmpty then (acc.1, mvAndErrs.2)
    else (acc.1 ++ [(entry.1, mvAndErrs.1)], mvAndErrs.2)
  let res := nodeMarkerComments.foldl step ([], [])
  (res.1, NewErrorList res.2)

/-- The value a Go type assertion marker.(ImportMarker) extracts. -/
def MValue.asImport : MValue → ImportMarker
  | .ofImport im => im
  | .ofValue _ => zeroImportMarker

/-- extractFileImportAliases of collector.go (lines 238-287): per file,
the alias map from import markers (alias defaulting to the marker
name), a duplicate-PkgId check, and the flat importMarkers table that
the source keys by the Value field. -/
def extractFileImportAliases (pkg : MPackage) (importNodeMarkers : NodeValues) :
    List (Nat × List (String × String)) × List (String × ImportMarker) ×
      Option (List PErr) :=
  let step := fun
    (acc : List (Nat × List (String × String)) × List (String × ImportMarker) ×
      List PErr) (entry : Nat × MarkerValues) =>
    match findNodeEvt pkg entry.1 with
    | none => acc
    | some evt =>
      match lookupStr entry.2 ImportMarkerName with
      | none => acc
      | some markers =>
        let inner := markers.foldl
          (fun (acc2 : List (String × String) × List String ×
              List (String × ImportMarker) × List PErr) (marker : MValue) =>
            let im := marker.asImport
            if acc2.2.1.contains im.GetPkgId then
              (acc2.1, acc2.2.1, acc2.2.2.1,
                acc2.2.2.2 ++ [toParseError
                  ("processor with Pkg " ++ im.GetPkgId ++
                    " has alrealdy been imported") evt.pos])
            else
              let am2 :=
                if im.Alias = "" then setStrAssoc acc2.1 im.Value im.Value
                else setStrAssoc acc2.1 im.Alias im.Value
              (am2, acc2.2.1 ++ [im.GetPkgId],
                setStrAssoc acc2.2.2.1 im.Value im, acc2.2.2.2))
          ([], [], acc.2.1, acc.2.2)
        (setAssoc acc.1 evt.fileId inner.1, inner.2.2.1, inner.2.2.2)
  let res := importNodeMarkers.foldl step ([], [], [])
  (res.1, res.2.1, NewErrorList res.2.2)

/-- parseMarkerComments of collector.go (lines 59-184): the import
pre-pass (its error aborts with a nil table), the per-file alias data,
then the main pass: alias resolution, registry lookup, the level
filter, parsing with error accumulation, and the per-node table update
that overwrites the seeded import entries.  The Marker.Validate hook of
the source is folded into Definition.Parse in this model. -/
def parseMarkerComments (reg : Registry) (pkg : MPackage)
    (nodeMarkerComments : List (Nat × List MarkerComment)) :
    Option NodeValues × Option (List PErr) :=
  let imp := parseImportMarkerComments reg pkg nodeMarkerComments
  match imp.2 with
  | some e => (none, some e)
  | none =>
    let extracted := extractFileImportAliases pkg imp.1
    match extracted.2.2 with
    | some e => (none, some e)
    | none =>
      let fia := extracted.1
      let ims := extracted.2.1
      let step := fun (acc : NodeValues × List PErr) (entry : Nat × List MarkerComment) =>
        let importAliases :=
          match findNodeEvt pkg entry.1 with
          | some evt => (lookupAssoc fia evt.fileId).getD []
          | none => []
        let inner := entry.2.foldl
          (fun (acc2 : MarkerValues × List PErr) (mc : MarkerComment) =>
            let markerText := mcText mc.text
            let aliasName := aliasNameOf markerText
            let resolved :=
              match lookupStr importAliases aliasName with
              | some canonical =>
                (replaceOnce markerText ("+" ++ aliasName) ("+" ++ canonical),
                  ((lookupStr ims aliasName).getD zeroImportMarker).GetPkgId)
              | none => (markerText, "")
            match Lookup reg resolved.1 resolved.2 with
            | none => acc2
            | some definition =>
              let drop :=
                match findNodeEvt pkg entry.1 with
                | some evt => levelSkip evt.kind definition.Level
                | none => false
              if drop then acc2
              else
                match definition.Parse resolved.1 with
                | .error e => (acc2.1, acc2.2 ++ [toParseError e mc.pos])
                | .ok value => (appendMV acc2.1 definition.Name value, acc2.2))
          ([], acc.2)
        if inner.1.isEmpty then (acc.1, inner.2)
        else (setAssoc acc.1 entry.1 inner.1, inner.2)
      let res := nodeMarkerComments.foldl step (imp.1, [])
      (some res.1, NewErrorList res.2)

/-- The error a Collect invocation reports: the hard nil-package error
or an accumulated ErrorList. -/
inductive CollectErr where
  | hard (msg : String)
  | errorList (errs : List PErr)

/-- Collect of collector.go (lines 21-35): nil package is a hard error;
otherwise the visitor tables feed parseMarkerComments, and any error
makes Collect return a nil map together with the error. -/
def Collect (reg : Registry) (pkg : Option MPackage) :
    Option NodeValues × Option CollectErr :=
  match pkg with
  | none => (none, some (.hard "pkg(package) cannot be nil"))
  | some pkg =>
    let nodeMarkers := collectPackageMarkerComments pkg
    let res := parseMarkerComments reg pkg nodeMarkers
    (match res.2 with
     | some e => (none, some (.errorList e))
     | none => (res.1, none))

/-- The built-in import marker definition. -/
def importDef : Definition := ⟨"import", "", { packageL := true }, .importOutput⟩

/-- A field-level marker with one unnamed Bool argument. -/
def flagADef : Definition := ⟨"flagA", "", { fieldL := true }, .anonymous .bool⟩

/-- A field-level marker with one unnamed String argument. -/
def msgDef : Definition := ⟨"msg", "", { fieldL := true }, .anonymous .str⟩

def c1Registry : Registry := [importDef, flagADef, msgDef]

/-- The C1 package: one file with a struct holding two fields, the
first carrying a Bool marker whose argument is not a boolean, the
second carrying a String marker that parses fine. -/
def c1File : MFile :=
  { fileId := 0, fileNodeId := 100,
    comments := [⟨10, ["// +flagA=notbool"]⟩, ⟨30, ["// +msg=hello"]⟩],
    events := [⟨.file, 100, 1, none, 0⟩, ⟨.genDecl, 101, 5, none, 0⟩,
      ⟨.typeSpec true false, 102, 6, none, 0⟩,
      ⟨.field false, 103, 20, some 10, 0⟩, ⟨.field false, 104, 40, some 30, 0⟩] }

def c1Pkg : MPackage := ⟨[c1File]⟩

def c1NodeMarkers : List (Nat × List MarkerComment) :=
  collectPackageMarkerComments c1Pkg

/-- C1: the claim says Collect accumulates the per-marker errors and
still returns the partial map holding every successfully parsed marker.
On this package parseMarkerComments does build the partial map (the
second field carries its parsed msg value) alongside one accumulated
error — but Collect, seeing a non-nil error, returns a nil map and so
discards the partial result, contradicting the claim. -/
theorem collect_discards_partial_map_on_error :
    (parseMarkerComments c1Registry c1Pkg c1NodeMarkers).2 =
      some [⟨"expected true or false, got " ++ goQuote "notbool", 10⟩] ∧
    lookupAssoc ((parseMarkerComments c1Registry c1Pkg c1NodeMarkers).1.getD []) 104 =
      some [("msg", [.ofValue (.vStr "hello")])] ∧
    (Collect c1Registry (some c1Pkg)).1 = none ∧
    (Collect c1Registry (some c1Pkg)).2 =
      some (.errorList [⟨"expected true or false, got " ++ goQuote "notbool", 10⟩]) :=
  ⟨rfl, rfl, rfl, rfl⟩

/-- A marker owned by the external processor package, which scenario
S4 imports. -/
def validationDef : Definition :=
  ⟨"validation:required", "example.com/x", { fieldL := true }, .unitOutput⟩

def c4Registry : Registry := [importDef, validationDef]

/-- The S4 file: a package-level import marker declaring alias v for
the validation markers of example.com/x, and a field carrying the
aliased marker +v:required. -/
def c4File : MFile :=
  { fileId := 0, fileNodeId := 200,
    comments := [⟨3, ["// +import=example.com/x,Alias=v,Value=validation"]⟩,
      ⟨30, ["// +v:required"]⟩],
    events := [⟨.file, 200, 5, some 3, 0⟩, ⟨.genDecl, 201, 10, none, 0⟩,
      ⟨.typeSpec true false, 202, 12, none, 0⟩,
      ⟨.field false, 203, 40, some 30, 0⟩] }

def c4Pkg : MPackage := ⟨[c4File]⟩

def c4ImportMarker : ImportMarker := ⟨"example.com/x", "v", "validation", ""⟩

def c4Extracted :
    List (Nat × List (String × String)) × List (String × ImportMarker) ×
      Option (List PErr) :=
  extractFileImportAliases c4Pkg
    (parseImportMarkerComments c4Registry c4Pkg (collectPackageMarkerComments c4Pkg)).1

/-- C4: the claim says the per-file alias data includes a flat map from
ALIAS to ImportMarker, so that the S4 field ends up carrying
validation:required.  The code builds the alias map correctly but keys
the flat importMarkers table by the Value field (validation) while the
main pass looks it up by the alias (v): the lookup misses, the zero
ImportMarker yields an empty PkgId, the rewritten marker is looked up
among the built-ins only and is not found, and the field ends up with
no marker values at all. -/
theorem import_markers_keyed_by_value_so_aliased_marker_dropped :
    c4Extracted.1 = [(0, [("v", "validation")])] ∧
    c4Extracted.2.1 = [("validation", c4ImportMarker)] ∧
    lookupStr c4Extracted.2.1 "v" = none ∧
    (Collect c4Registry (some c4Pkg)).1 =
      some [(200, [("import", [.ofImport c4ImportMarker])])] ∧
    lookupAssoc ((Collect c4Registry (some c4Pkg)).1.getD []) 203 = none :=
  ⟨rfl, rfl, rfl, rfl, rfl⟩

end Marker
